import Mathlib

/-!
# ssmdotenv

A shallow embedding of the Go package `ssmdotenv` (`ssmdotenv.go`, `ssm_client.go`) and the
properties of its three public operations `Load`, `Env` and `GetParameter`.

The package variables (`verbose`, `prefix`, `client`) and the process environment are made
explicit in `State`; the collaborators the package calls but does not define (the `.env`
file read by `godotenv.Load`, `config.LoadDefaultConfig`, the SSM client) are made explicit
in `World` and `SSMClient`.  A run-time panic is an explicit outcome.
-/

namespace Ssmdotenv

/-! ## Go strings and the process environment -/

/-- A Go string is a sequence of bytes: `len s` is `s.length`, `s[n:]` is `s.drop n`
(for `n ≤ len s`), `s + t` is `s ++ t` and `s != ""` is `s ≠ []`. -/
abbrev GoString := List UInt8

/-- The Go string literal written with the given text (its UTF-8 bytes). -/
def str (s : String) : GoString := s.toUTF8.data.toList

/-- A Go `error` value, identified by its message. -/
abbrev Error := GoString

/-- The process environment: the `KEY=value` entries of the process, oldest first. -/
abbrev Environ := List (GoString × GoString)

/-- The value stored under `key`, if any (the first entry wins, as in `syscall.copyenv`). -/
def find (key : GoString) : Environ → Option GoString
  | [] => none
  | (k, v) :: rest => if k = key then some v else find key rest

/-- Replace the value of the entry for `key`, or add an entry when there is none. -/
def store (key value : GoString) : Environ → Environ
  | [] => [(key, value)]
  | (k, v) :: rest => if k = key then (k, value) :: rest else (k, v) :: store key value rest

/-- `os.LookupEnv`: the empty key is never found. -/
def LookupEnv (env : Environ) (key : GoString) : Option GoString :=
  if key = [] then none else find key env

/-- `os.Getenv`: the value of `key`, or `""` when it is not set. -/
def Getenv (env : Environ) (key : GoString) : GoString :=
  (LookupEnv env key).getD []

/-- The check of `syscall.Setenv` (Unix): it fails with `EINVAL` on an empty key, on a key
holding `=` or a NUL byte, and on a value holding a NUL byte. -/
def settable (key value : GoString) : Bool :=
  !key.isEmpty && key.all (fun b => b != 61 && b != 0) && value.all (fun b => b != 0)

/-- `os.Setenv` with its error dropped, as every caller here drops it: the environment is
unchanged when the call fails. -/
def Setenv (env : Environ) (key value : GoString) : Environ :=
  if settable key value then store key value env else env

/-- `godotenv.Load()` on the parsed `.env` file of the working directory (`none`: the file
cannot be read or parsed).  The keys of the file are set in file order, except those that
are already present in the environment when the call starts (`loadFile` with
`overload = false`); the second component is `err != nil`. -/
def godotenvLoad (file : Option (List (GoString × GoString))) (env : Environ) :
    Environ × Bool :=
  match file with
  | none => (env, true)
  | some entries =>
    let currentEnv := env.map Prod.fst
    (entries.foldl (fun e kv => if kv.1 ∈ currentEnv then e else Setenv e kv.1 kv.2) env,
      false)

/-! ## The SSM client (`ssm_client.go`) -/

/-- `types.Parameter`: both fields are pointers and may be nil. -/
structure Parameter where
  Name : Option GoString
  Value : Option GoString
deriving DecidableEq

/-- `ssm.GetParameterInput`, with the fields the package fills in. -/
structure GetParameterInput where
  Name : GoString
  WithDecryption : Bool
deriving DecidableEq

/-- `ssm.GetParameterOutput`. -/
structure GetParameterOutput where
  Parameter : Option Parameter
deriving DecidableEq

/-- `ssm.GetParametersByPathInput`, with the fields the package fills in. -/
structure GetParametersByPathInput where
  Path : GoString
  Recursive : Bool
  WithDecryption : Bool
deriving DecidableEq

/-- `ssm.GetParametersByPathOutput`. -/
structure GetParametersByPathOutput where
  Parameters : List Parameter
deriving DecidableEq

/-- A `*ssm.GetParametersByPathPaginator`, given by the results `(page, err)` of its
successive `NextPage` calls; `HasMorePages()` holds while the list is not exhausted. -/
abbrev Paginator := List (Option GetParametersByPathOutput × Option Error)

/-- The interface `SSMClient`: an implementation is given by what its two methods return.
Results are Go pairs `(result, err)`; a nil pointer is `none`. -/
structure SSMClient where
  GetParameter : GetParameterInput → Option GetParameterOutput × Option Error
  GetParametersByPathPaginator : GetParametersByPathInput → Option Paginator

/-! ## Package state -/

/-- The lines `verboseLog` can print. -/
inductive LogLine
  | dotenvFileNotFound
  | errorGettingParameters (err : Error)
  | loadedParameter (name : GoString)
  | noParametersLoaded (path : GoString)
  | unableToGetParameter (path : GoString) (err : Error)
  | cantCreateClient (err : Error)
deriving DecidableEq

/-- A call made to a collaborator; the calls are recorded in program order. -/
inductive Call
  | LoadDefaultConfig (region : GoString)
  | GetParameter (input : GetParameterInput)
  | GetParametersByPathPaginator (input : GetParametersByPathInput)
  | NextPage (path : GoString)
deriving DecidableEq

/-- The package variables `verbose`, `prefix` (here `namePrefix`) and `client`, the process
environment, the lines printed so far and the collaborator calls made so far.  The last two
are only ever appended to; no operation reads them. -/
structure State where
  verbose : Bool
  namePrefix : GoString
  client : Option SSMClient
  env : Environ
  log : List LogLine
  calls : List Call

/-- What the package finds around it: the parsed `.env` file, and the outcome of
`config.LoadDefaultConfig` with a region option, in a given process environment, followed by
`ssm.NewFromConfig` and the wrapping into `AWSSSMClient`. -/
structure World where
  dotenv : Option (List (GoString × GoString))
  LoadDefaultConfig : Environ → GoString → Except Error SSMClient

/-- The state of a freshly started process with environment `env`: Go zero values. -/
def initial (env : Environ) : State :=
  { verbose := false, namePrefix := [], client := none, env := env, log := [], calls := [] }

/-- A run-time panic. -/
inductive Panic
  | nilDereference
  | sliceBoundsOutOfRange
deriving DecidableEq

/-- The outcome of a public operation: it returns `val` in state `s`, or panics in `s`. -/
inductive Result (α : Type)
  | ok (val : α) (s : State)
  | panic (p : Panic) (s : State)

/-- The state in which an operation stopped. -/
def Result.state {α : Type} : Result α → State
  | .ok _ s => s
  | .panic _ s => s

/-- Whether the operation returned normally. -/
def Result.returns {α : Type} : Result α → Bool
  | .ok _ _ => true
  | .panic _ _ => false

/-- The value returned, if the operation returned. -/
def Result.value {α : Type} : Result α → Option α
  | .ok v _ => some v
  | .panic _ _ => none

/-! ## The package (`ssmdotenv.go`) -/

/-- `SetVerbose`. -/
def SetVerbose (v : Bool) (s : State) : State := { s with verbose := v }

/-- `SetPrefix`. -/
def SetPrefix (p : GoString) (s : State) : State := { s with namePrefix := p }

/-- `verboseLog`: prints only in verbose mode. -/
def verboseLog (s : State) (line : LogLine) : State :=
  if !s.verbose then s else { s with log := s.log ++ [line] }

/-- `def`: the first default, or `""`. -/
def def_ (defaultValue : List GoString) : GoString :=
  match defaultValue with
  | d :: _ => d
  | [] => []

/-- `Env`. -/
def Env (s : State) (key : GoString) (defaultValue : List GoString) : GoString :=
  let value := Getenv s.env key
  if value ≠ [] then value else def_ defaultValue

/-- `getSsmClient`: the memoised client, or a construction attempt. -/
def getSsmClient (w : World) (s : State) : Option SSMClient × State :=
  match s.client with
  | some c => (some c, s)
  | none =>
    let region := Env s (str "AWS_REGION") [str "eu-west-3"]
    let s := { s with calls := s.calls ++ [Call.LoadDefaultConfig region] }
    match w.LoadDefaultConfig s.env region with
    | .error err => (none, verboseLog s (.cantCreateClient err))
    | .ok c => (some c, { s with client := some c })

/-- `GetParameter`. -/
def GetParameter (w : World) (parameterName : GoString) (defaultValue : List GoString)
    (s : State) : Result GoString :=
  match getSsmClient w s with
  | (none, s) => .ok (def_ defaultValue) s
  | (some client, s) =>
    let path := s.namePrefix ++ parameterName
    let input : GetParameterInput := { Name := path, WithDecryption := true }
    let s := { s with calls := s.calls ++ [Call.GetParameter input] }
    match client.GetParameter input with
    | (_, some err) => .ok (def_ defaultValue) (verboseLog s (.unableToGetParameter path err))
    | (none, none) => .panic .nilDereference s
    | (some result, none) =>
      match result.Parameter with
      | none => .panic .nilDereference s
      | some parameter =>
        match parameter.Value with
        | none => .panic .nilDereference s
        | some value => .ok value s

/-- How a loop of `Load` ends: it runs to its end (with the running `count`), the function
returns from inside it, or it panics. -/
inductive Flow
  | next (s : State) (count : Nat)
  | ret (s : State)
  | panic (p : Panic) (s : State)

/-- The state in which a loop stopped. -/
def Flow.state : Flow → State
  | .next s _ => s
  | .ret s => s
  | .panic _ s => s

/-- Whether the loop stopped in a panic. -/
def Flow.panicked : Flow → Bool
  | .next _ _ => false
  | .ret _ => false
  | .panic _ _ => true

/-- Whether the loop ran to its end, so that the code after it runs. -/
def Flow.continues : Flow → Bool
  | .next _ _ => true
  | .ret _ => false
  | .panic _ _ => false

/-- The loop `for _, param := range page.Parameters` of `Load`. -/
def loadParameters (path : GoString) : List Parameter → State → Nat → Flow
  | [], s, count => .next s count
  | param :: rest, s, count =>
    match param.Name with
    | none => .panic .nilDereference s
    | some n =>
      if n.length < path.length then .panic .sliceBoundsOutOfRange s
      else
        let name := n.drop path.length
        if Getenv s.env name ≠ [] then loadParameters path rest s count
        else
          let s := verboseLog s (.loadedParameter name)
          match param.Value with
          | none => .panic .nilDereference s
          | some v =>
            loadParameters path rest { s with env := Setenv s.env name v } (count + 1)

/-- The loop `for paginator.HasMorePages()` of `Load`. -/
def loadPages (path : GoString) : Paginator → State → Nat → Flow
  | [], s, count => .next s count
  | (page, err) :: rest, s, count =>
    let s := { s with calls := s.calls ++ [Call.NextPage path] }
    match err with
    | some e => .ret (verboseLog s (.errorGettingParameters e))
    | none =>
      match page with
      | none => .panic .nilDereference s
      | some page =>
        match loadParameters path page.Parameters s count with
        | .next s count => loadPages path rest s count
        | stop => stop

/-- The loop `for _, path := range paths` of `Load`. -/
def loadPaths (client : SSMClient) : List GoString → State → Result Unit
  | [], s => .ok () s
  | path :: rest, s =>
    let input : GetParametersByPathInput :=
      { Path := path, Recursive := true, WithDecryption := true }
    let s := { s with calls := s.calls ++ [Call.GetParametersByPathPaginator input] }
    match client.GetParametersByPathPaginator input with
    | none => .panic .nilDereference s
    | some paginator =>
      match loadPages path paginator s 0 with
      | .next s count =>
        loadPaths client rest (if count = 0 then verboseLog s (.noParametersLoaded path) else s)
      | .ret s => .ok () s
      | .panic p s => .panic p s

/-- The first statement of `Load`: `err := godotenv.Load()`, logged when it fails. -/
def loadDotenv (w : World) (s : State) : State :=
  let loaded := godotenvLoad w.dotenv s.env
  let s := { s with env := loaded.1 }
  if loaded.2 then verboseLog s .dotenvFileNotFound else s

/-- `Load`. -/
def Load (w : World) (paths : List GoString) (s : State) : Result Unit :=
  match getSsmClient w (loadDotenv w s) with
  | (none, s) => .ok () s
  | (some client, s) => loadPaths client paths s

/-! ## Sequences of calls -/

/-- A call of one of the two operations that access the remote store. -/
inductive Op
  | Load (paths : List GoString)
  | GetParameter (parameterName : GoString) (defaultValue : List GoString)

/-- The state after one call (the state at the panic, if it panics). -/
def step (w : World) (op : Op) (s : State) : State :=
  match op with
  | .Load paths => (Load w paths s).state
  | .GetParameter n d => (GetParameter w n d s).state

/-- The state after a sequence of calls, each starting where the previous one stopped. -/
def run (w : World) : List Op → State → State
  | [], s => s
  | op :: rest, s => run w rest (step w op s)

/-- The number of client constructions attempted (`config.LoadDefaultConfig` calls). -/
def constructions (calls : List Call) : Nat :=
  (calls.filter (fun c => match c with | .LoadDefaultConfig _ => true | _ => false)).length

/-- The single-parameter fetches issued, in order. -/
def fetches : List Call → List GetParameterInput
  | [] => []
  | .GetParameter input :: rest => input :: fetches rest
  | _ :: rest => fetches rest

/-- The paths of the page requests issued, in order. -/
def pageRequests : List Call → List GoString
  | [] => []
  | .NextPage path :: rest => path :: pageRequests rest
  | _ :: rest => pageRequests rest

/-! ## The loading rule of the specification -/

/-- A pair (target variable name, remote value). -/
abbrev Item := GoString × GoString

/-- The rule of the specification for one returned parameter: "if that variable is already
set and non-empty in the process environment, skip it; otherwise set it from the remote
value". -/
def applyItem (env : Environ) (item : Item) : Environ :=
  if Getenv env item.1 ≠ [] then env else Setenv env item.1 item.2

/-- The rule applied to a sequence of parameters, in order. -/
def applyItems (env : Environ) (items : List Item) : Environ :=
  items.foldl applyItem env

/-- The parameters of a page that carry a name and a value, as (name with the first
`len path` bytes stripped, value), in page order. -/
def strip (path : GoString) : List Parameter → List Item
  | [] => []
  | p :: rest =>
    match p.Name, p.Value with
    | some n, some v => (n.drop path.length, v) :: strip path rest
    | _, _ => strip path rest

/-- The items of the pages of one path, in page order. -/
def pageItems (path : GoString) : List GetParametersByPathOutput → List Item
  | [] => []
  | page :: rest => strip path page.Parameters ++ pageItems path rest

/-- The items of a list of paths in processing order: paths in the order given, pages in
order, parameters in page order; `remote q` are the pages listed under path `q`. -/
def items (remote : GoString → List GetParametersByPathOutput) : List GoString → List Item
  | [] => []
  | q :: rest => pageItems q (remote q) ++ items remote rest

/-- A paginator that delivers the given pages and never fails. -/
def okPages (pages : List GetParametersByPathOutput) : Paginator :=
  pages.map (fun page => (some page, none))

/-- One page request per page of each path, in path order. -/
def requestsFor (remote : GoString → List GetParametersByPathOutput) :
    List GoString → List GoString
  | [] => []
  | q :: rest => List.replicate (remote q).length q ++ requestsFor remote rest

/-! ## Well-formed remote answers -/

/-- A parameter returned under `path` has a name and a value, and its name is at least as
long as `path`. -/
def Parameter.wellFormed (path : GoString) (p : Parameter) : Bool :=
  match p.Name, p.Value with
  | some n, some _ => decide (path.length ≤ n.length)
  | _, _ => false

/-- Every parameter of every page is well formed for `path`. -/
def wellFormedPages (path : GoString) (pages : List GetParametersByPathOutput) : Bool :=
  pages.all (fun page => page.Parameters.all (Parameter.wellFormed path))

/-- A `NextPage` result that `Load` can process: an error, or a page of well-formed
parameters. -/
def pageSafe (path : GoString) : Option GetParametersByPathOutput × Option Error → Bool
  | (_, some _) => true
  | (some page, none) => page.Parameters.all (Parameter.wellFormed path)
  | (none, none) => false

/-- A paginator that `Load` can process: not nil, every result processable. -/
def paginatorSafe (path : GoString) : Option Paginator → Bool
  | none => false
  | some results => results.all (pageSafe path)

/-- A `GetParameter` result that `GetParameter` can process: an error, or an output whose
`Parameter` and `Parameter.Value` are present. -/
def outputSafe : Option GetParameterOutput × Option Error → Bool
  | (_, some _) => true
  | (some output, none) =>
    match output.Parameter with
    | some parameter => parameter.Value.isSome
    | none => false
  | (none, none) => false

/-- The clients the package can come to use from state `s` in world `w`: the memoised one,
or one that `config.LoadDefaultConfig` yields. -/
def usable (w : World) (s : State) (c : SSMClient) : Prop :=
  s.client = some c ∨ ∃ env region, w.LoadDefaultConfig env region = .ok c

/-! ## Growth of the environment -/

/-- `Ext E E'`: `E'` is reached from `E` by `Setenv` calls on variables that were unset or
empty at the time of the call. -/
inductive Ext : Environ → Environ → Prop
  | refl (E : Environ) : Ext E E
  | step {E E' : Environ} (k v : GoString) : Ext E E' → Getenv E' k = [] → Ext E (Setenv E' k v)

/-- Applying the item `(k, v)` in `E` changes nothing. -/
def Quiet (E : Environ) (k v : GoString) : Prop :=
  Getenv E k ≠ [] ∨ settable k v = false ∨ find k E = some v

/-! ## Example worlds -/

/-- The page listed under `/app/`: `/app/FOO=1` and `/app/BAR=2`. -/
def appPage : GetParametersByPathOutput :=
  { Parameters := [⟨some (str "/app/FOO"), some (str "1")⟩,
                   ⟨some (str "/app/BAR"), some (str "2")⟩] }

/-- A store holding `/app/FOO=1`, `/app/BAR=2` and `/common/FOO=2`, one page per path, and
`/svc/token=s3cret` as the only parameter that can be fetched by name. -/
def appClient : SSMClient :=
  { GetParameter := fun input =>
      if input.Name = str "/svc/token" then
        (some { Parameter := some ⟨some (str "/svc/token"), some (str "s3cret")⟩ }, none)
      else (none, some (str "ParameterNotFound")),
    GetParametersByPathPaginator := fun input =>
      if input.Path = str "/app/" then some (okPages [appPage])
      else if input.Path = str "/common/" then
        some (okPages [{ Parameters := [⟨some (str "/common/FOO"), some (str "2")⟩] }])
      else some (okPages [{ Parameters := [] }]) }

/-- The pages `appClient` lists under each path. -/
def appRemote (path : GoString) : List GetParametersByPathOutput :=
  if path = str "/app/" then [appPage]
  else if path = str "/common/" then
    [{ Parameters := [⟨some (str "/common/FOO"), some (str "2")⟩] }]
  else [{ Parameters := [] }]

/-- No `.env` file; the client can always be built and is `appClient`. -/
def appWorld : World :=
  { dotenv := none, LoadDefaultConfig := fun _ _ => .ok appClient }

/-- No `.env` file, and the client can never be built. -/
def offlineWorld : World :=
  { dotenv := none, LoadDefaultConfig := fun _ _ => .error (str "no configuration") }

/-- The first page listed under `/db/`: `/db/HOST=h`. -/
def dbPage : GetParametersByPathOutput :=
  { Parameters := [⟨some (str "/db/HOST"), some (str "h")⟩] }

/-- A store like `appClient` whose listing of `/db/` delivers `dbPage`, then fails, and
would deliver `/db/PORT=5432` on a third request. -/
def flakyClient : SSMClient :=
  { GetParameter := appClient.GetParameter,
    GetParametersByPathPaginator := fun input =>
      if input.Path = str "/db/" then
        some (okPages [dbPage] ++
          [(none, some (str "ThrottlingException")),
           (some { Parameters := [⟨some (str "/db/PORT"), some (str "5432")⟩] }, none)])
      else appClient.GetParametersByPathPaginator input }

/-- No `.env` file; the client can always be built and is `flakyClient`. -/
def flakyWorld : World :=
  { dotenv := none, LoadDefaultConfig := fun _ _ => .ok flakyClient }

/-- A client whose answers are not well formed: the listing of any path returns one
parameter named `/a`, and a fetch by name answers without error and without a parameter. -/
def brokenClient : SSMClient :=
  { GetParameter := fun _ => (some { Parameter := none }, none),
    GetParametersByPathPaginator := fun _ =>
      some (okPages [{ Parameters := [⟨some (str "/a"), some (str "1")⟩] }]) }

/-- No `.env` file; the client can always be built and is `brokenClient`. -/
def brokenWorld : World :=
  { dotenv := none, LoadDefaultConfig := fun _ _ => .ok brokenClient }

/-- A `.env` file holding `FOO=local`; the client can always be built and is `appClient`. -/
def dotenvWorld : World :=
  { dotenv := some [(str "FOO", str "local")], LoadDefaultConfig := fun _ _ => .ok appClient }

/-! ## The environment -/

theorem find_store_same (k v : GoString) (E : Environ) : find k (store k v E) = some v := by
  induction E with
  | nil => simp [store, find]
  | cons e rest ih =>
    obtain ⟨a, b⟩ := e
    by_cases h : a = k
    · simp [store, find, h]
    · simp [store, find, h, ih]

theorem find_store_ne {k k2 : GoString} (v : GoString) (E : Environ) (h : k2 ≠ k) :
    find k2 (store k v E) = find k2 E := by
  induction E with
  | nil => simp [store, find, Ne.symm h]
  | cons e rest ih =>
    obtain ⟨a, b⟩ := e
    by_cases h1 : a = k
    · subst h1
      simp [store, find, Ne.symm h]
    · by_cases h2 : a = k2
      · subst h2
        simp [store, find, h1]
      · simp [store, find, h1, h2, ih]

theorem store_eq_self {k v : GoString} {E : Environ} (h : find k E = some v) :
    store k v E = E := by
  induction E with
  | nil => simp [find] at h
  | cons e rest ih =>
    obtain ⟨a, b⟩ := e
    by_cases h1 : a = k
    · simp [find, h1] at h
      simp [store, h1, h]
    · simp [find, h1] at h
      simp [store, h1, ih h]

theorem keys_store (k v : GoString) (E : Environ) :
    k ∈ (store k v E).map Prod.fst ∧ ∀ x ∈ E.map Prod.fst, x ∈ (store k v E).map Prod.fst := by
  induction E with
  | nil => simp [store]
  | cons e rest ih =>
    obtain ⟨a, b⟩ := e
    by_cases h1 : a = k
    · subst h1
      simp [store]
    · refine ⟨by simp [store, h1, ih.1], ?_⟩
      intro x hx
      simp only [List.map_cons, List.mem_cons] at hx
      rcases hx with hx | hx
      · simp [store, h1, hx]
      · have := ih.2 x hx
        simp [store, h1, this]

theorem find_eq_none_of_not_mem {k : GoString} {E : Environ} (h : k ∉ E.map Prod.fst) :
    find k E = none := by
  induction E with
  | nil => rfl
  | cons e rest ih =>
    obtain ⟨a, b⟩ := e
    simp only [List.map_cons, List.mem_cons, not_or] at h
    simp [find, Ne.symm h.1, ih h.2]

theorem settable_ne_nil {k v : GoString} (h : settable k v = true) : k ≠ [] := by
  intro hk
  subst hk
  simp [settable] at h

theorem Getenv_of_not_mem {k : GoString} {E : Environ} (h : k ∉ E.map Prod.fst) :
    Getenv E k = [] := by
  unfold Getenv LookupEnv
  split <;> simp [find_eq_none_of_not_mem h]

theorem Getenv_Setenv_same {k v : GoString} (E : Environ) (h : settable k v = true) :
    Getenv (Setenv E k v) k = v := by
  simp [Getenv, LookupEnv, Setenv, h, settable_ne_nil h, find_store_same]

theorem Getenv_Setenv_ne {k k2 : GoString} (v : GoString) (E : Environ) (h : k2 ≠ k) :
    Getenv (Setenv E k v) k2 = Getenv E k2 := by
  unfold Setenv
  split
  · simp [Getenv, LookupEnv, find_store_ne v E h]
  · rfl

theorem keys_Setenv (k v : GoString) (E : Environ) :
    ∀ x ∈ E.map Prod.fst, x ∈ (Setenv E k v).map Prod.fst := by
  unfold Setenv
  split
  · exact (keys_store k v E).2
  · exact fun x hx => hx

/-- Setting a variable that was unset or empty leaves every non-empty variable as it was. -/
theorem Getenv_Setenv_keep {E : Environ} {k k2 : GoString} (v : GoString)
    (hk : Getenv E k = []) (h2 : Getenv E k2 ≠ []) :
    Getenv (Setenv E k v) k2 = Getenv E k2 := by
  apply Getenv_Setenv_ne
  intro h
  subst h
  exact h2 hk

theorem Ext.trans {A B C : Environ} (h1 : Ext A B) (h2 : Ext B C) : Ext A C := by
  induction h2 with
  | refl => exact h1
  | step k v _ hk ih => exact Ext.step k v ih hk

theorem Ext.single {E : Environ} (k v : GoString) (hk : Getenv E k = []) :
    Ext E (Setenv E k v) :=
  Ext.step k v (Ext.refl E) hk

/-- Growth never changes a variable that was set and non-empty. -/
theorem Ext.keeps {E E2 : Environ} (h : Ext E E2) (k : GoString) (hk : Getenv E k ≠ []) :
    Getenv E2 k = Getenv E k := by
  induction h with
  | refl => rfl
  | step k2 v _ hk2 ih =>
    rw [← ih]
    exact Getenv_Setenv_keep v hk2 (by rw [ih]; exact hk)

theorem Ext.keys {E E2 : Environ} (h : Ext E E2) :
    ∀ x ∈ E.map Prod.fst, x ∈ E2.map Prod.fst := by
  induction h with
  | refl => exact fun x hx => hx
  | step k v _ _ ih => exact fun x hx => keys_Setenv k v _ x (ih x hx)

/-! ## What the loops of `Load` leave alone -/

@[simp] theorem verboseLog_env (s : State) (l : LogLine) : (verboseLog s l).env = s.env := by
  unfold verboseLog; split <;> rfl

@[simp] theorem verboseLog_client (s : State) (l : LogLine) :
    (verboseLog s l).client = s.client := by
  unfold verboseLog; split <;> rfl

@[simp] theorem verboseLog_calls (s : State) (l : LogLine) :
    (verboseLog s l).calls = s.calls := by
  unfold verboseLog; split <;> rfl

@[simp] theorem verboseLog_namePrefix (s : State) (l : LogLine) :
    (verboseLog s l).namePrefix = s.namePrefix := by
  unfold verboseLog; split <;> rfl

theorem loadParameters_frame (path : GoString) (ps : List Parameter) :
    ∀ (s : State) (count : Nat),
      (loadParameters path ps s count).state.client = s.client ∧
      (loadParameters path ps s count).state.calls = s.calls ∧
      Ext s.env (loadParameters path ps s count).state.env := by
  induction ps with
  | nil => intro s count; exact ⟨rfl, rfl, Ext.refl _⟩
  | cons param rest ih =>
    intro s count
    unfold loadParameters
    cases hn : param.Name with
    | none => exact ⟨rfl, rfl, Ext.refl _⟩
    | some n =>
      simp only
      split
      · exact ⟨rfl, rfl, Ext.refl _⟩
      · split
        · exact ih s count
        · rename_i hg
          have hg2 : Getenv s.env (List.drop path.length n) = [] := by simpa using hg
          cases hv : param.Value with
          | none => simp [Flow.state, Ext.refl]
          | some v =>
            simp only
            obtain ⟨h1, h2, h3⟩ :=
              ih { verboseLog s (.loadedParameter (List.drop path.length n)) with
                   env := Setenv (verboseLog s (.loadedParameter (List.drop path.length n))).env
                            (List.drop path.length n) v } (count + 1)
            refine ⟨by simpa using h1, by simpa using h2, ?_⟩
            refine Ext.trans ?_ h3
            simpa using Ext.single (List.drop path.length n) v hg2

theorem constructions_append (a b : List Call) :
    constructions (a ++ b) = constructions a + constructions b := by
  simp [constructions, List.filter_append]

theorem fetches_append (a b : List Call) : fetches (a ++ b) = fetches a ++ fetches b := by
  induction a with
  | nil => rfl
  | cons c rest ih => cases c <;> simp [fetches, ih]

theorem pageRequests_append (a b : List Call) :
    pageRequests (a ++ b) = pageRequests a ++ pageRequests b := by
  induction a with
  | nil => rfl
  | cons c rest ih => cases c <;> simp [pageRequests, ih]

theorem loadPages_frame (path : GoString) (pg : Paginator) :
    ∀ (s : State) (count : Nat),
      (loadPages path pg s count).state.client = s.client ∧
      constructions (loadPages path pg s count).state.calls = constructions s.calls ∧
      fetches (loadPages path pg s count).state.calls = fetches s.calls ∧
      Ext s.env (loadPages path pg s count).state.env := by
  induction pg with
  | nil => intro s count; exact ⟨rfl, rfl, rfl, Ext.refl _⟩
  | cons entry rest ih =>
    intro s count
    obtain ⟨page, err⟩ := entry
    unfold loadPages
    cases err with
    | some e =>
      simp [Flow.state, constructions_append, fetches_append, constructions, fetches, Ext.refl]
    | none =>
      cases page with
      | none =>
        simp [Flow.state, constructions_append, fetches_append, constructions, fetches, Ext.refl]
      | some page =>
        simp only
        obtain ⟨h1, h2, h3⟩ := loadParameters_frame path page.Parameters
          { s with calls := s.calls ++ [Call.NextPage path] } count
        have hc : constructions (s.calls ++ [Call.NextPage path]) = constructions s.calls := by
          simp [constructions_append, constructions]
        have hf : fetches (s.calls ++ [Call.NextPage path]) = fetches s.calls := by
          simp [fetches_append, fetches]
        cases hr : loadParameters path page.Parameters
            { s with calls := s.calls ++ [Call.NextPage path] } count with
        | next s2 c2 =>
          rw [hr] at h1 h2 h3
          simp only [Flow.state] at h1 h2 h3
          obtain ⟨i1, i2, i3, i4⟩ := ih s2 c2
          exact ⟨i1.trans h1, by rw [i2, h2, hc], by rw [i3, h2, hf], Ext.trans h3 i4⟩
        | ret s2 =>
          rw [hr] at h1 h2 h3
          simp only [Flow.state] at h1 h2 h3 ⊢
          exact ⟨h1, by rw [h2, hc], by rw [h2, hf], h3⟩
        | panic p s2 =>
          rw [hr] at h1 h2 h3
          simp only [Flow.state] at h1 h2 h3 ⊢
          exact ⟨h1, by rw [h2, hc], by rw [h2, hf], h3⟩

theorem loadPaths_frame (client : SSMClient) (paths : List GoString) :
    ∀ (s : State),
      (loadPaths client paths s).state.client = s.client ∧
      constructions (loadPaths client paths s).state.calls = constructions s.calls ∧
      fetches (loadPaths client paths s).state.calls = fetches s.calls ∧
      Ext s.env (loadPaths client paths s).state.env := by
  induction paths with
  | nil => intro s; exact ⟨rfl, rfl, rfl, Ext.refl _⟩
  | cons path rest ih =>
    intro s
    unfold loadPaths
    simp only
    have hc : ∀ (i : GetParametersByPathInput),
        constructions (s.calls ++ [Call.GetParametersByPathPaginator i]) =
          constructions s.calls := by
      intro i; simp [constructions_append, constructions]
    have hf : ∀ (i : GetParametersByPathInput),
        fetches (s.calls ++ [Call.GetParametersByPathPaginator i]) = fetches s.calls := by
      intro i; simp [fetches_append, fetches]
    cases client.GetParametersByPathPaginator
        { Path := path, Recursive := true, WithDecryption := true } with
    | none => exact ⟨rfl, hc _, hf _, Ext.refl _⟩
    | some paginator =>
      simp only
      obtain ⟨h1, h2, h3, h4⟩ := loadPages_frame path paginator
        { s with calls := s.calls ++ [Call.GetParametersByPathPaginator
            { Path := path, Recursive := true, WithDecryption := true }] } 0
      cases hr : loadPages path paginator
        { s with calls := s.calls ++ [Call.GetParametersByPathPaginator
            { Path := path, Recursive := true, WithDecryption := true }] } 0 with
      | next s2 c2 =>
        rw [hr] at h1 h2 h3 h4
        simp only [Flow.state] at h1 h2 h3 h4
        simp only
        obtain ⟨i1, i2, i3, i4⟩ :=
          ih (if c2 = 0 then verboseLog s2 (.noParametersLoaded path) else s2)
        have e1 : (if c2 = 0 then verboseLog s2 (.noParametersLoaded path) else s2).client
            = s2.client := by split <;> simp
        have e2 : (if c2 = 0 then verboseLog s2 (.noParametersLoaded path) else s2).calls
            = s2.calls := by split <;> simp
        have e3 : (if c2 = 0 then verboseLog s2 (.noParametersLoaded path) else s2).env
            = s2.env := by split <;> simp
        rw [e1] at i1
        rw [e2] at i2 i3
        rw [e3] at i4
        exact ⟨i1.trans h1, by rw [i2, h2, hc], by rw [i3, h3, hf], Ext.trans h4 i4⟩
      | ret s2 =>
        rw [hr] at h1 h2 h3 h4
        simp only [Flow.state] at h1 h2 h3 h4
        simp only [Result.state]
        exact ⟨h1, by rw [h2, hc], by rw [h3, hf], h4⟩
      | panic p s2 =>
        rw [hr] at h1 h2 h3 h4
        simp only [Flow.state] at h1 h2 h3 h4
        simp only [Result.state]
        exact ⟨h1, by rw [h2, hc], by rw [h3, hf], h4⟩

/-! ## `godotenv.Load` and `getSsmClient` -/

theorem mem_keys_of_Getenv {E : Environ} {k : GoString} (h : Getenv E k ≠ []) :
    k ∈ E.map Prod.fst := by
  by_contra hk
  exact h (Getenv_of_not_mem hk)

theorem godotenvLoad_keeps (file : Option (List (GoString × GoString))) (env : Environ)
    (k : GoString) (h : Getenv env k ≠ []) :
    Getenv (godotenvLoad file env).1 k = Getenv env k := by
  cases file with
  | none => rfl
  | some entries =>
    simp only [godotenvLoad]
    have hk := mem_keys_of_Getenv h
    suffices H : ∀ e : Environ, Getenv e k = Getenv env k →
        Getenv (entries.foldl
          (fun e kv => if kv.1 ∈ env.map Prod.fst then e else Setenv e kv.1 kv.2) e) k
          = Getenv env k from H env rfl
    induction entries with
    | nil => exact fun e he => he
    | cons kv rest ih =>
      intro e he
      simp only [List.foldl_cons]
      apply ih
      split
      · exact he
      · rename_i hkv
        rw [Getenv_Setenv_ne _ _ (fun (hh : k = kv.1) => hkv (by rw [← hh]; exact hk))]
        exact he

@[simp] theorem getSsmClient_env (w : World) (s : State) :
    (getSsmClient w s).2.env = s.env := by
  unfold getSsmClient
  cases s.client with
  | some c => rfl
  | none =>
    simp only
    cases w.LoadDefaultConfig s.env (Env s (str "AWS_REGION") [str "eu-west-3"]) <;> simp

/-- After the call the package variable `client` holds what the call returned. -/
theorem getSsmClient_client (w : World) (s : State) :
    (getSsmClient w s).2.client = (getSsmClient w s).1 := by
  unfold getSsmClient
  cases h : s.client with
  | some c => simp [h]
  | none =>
    simp only
    cases w.LoadDefaultConfig s.env (Env s (str "AWS_REGION") [str "eu-west-3"]) <;> simp [h]

@[simp] theorem getSsmClient_namePrefix (w : World) (s : State) :
    (getSsmClient w s).2.namePrefix = s.namePrefix := by
  unfold getSsmClient
  cases s.client with
  | some c => rfl
  | none =>
    simp only
    cases w.LoadDefaultConfig s.env (Env s (str "AWS_REGION") [str "eu-west-3"]) <;> simp

theorem getSsmClient_of_some {w : World} {s : State} {c : SSMClient} (h : s.client = some c) :
    getSsmClient w s = (some c, s) := by
  simp [getSsmClient, h]

@[simp] theorem getSsmClient_fetches (w : World) (s : State) :
    fetches (getSsmClient w s).2.calls = fetches s.calls := by
  unfold getSsmClient
  cases s.client with
  | some c => rfl
  | none =>
    simp only
    cases w.LoadDefaultConfig s.env (Env s (str "AWS_REGION") [str "eu-west-3"]) <;>
      simp [fetches_append, fetches]

@[simp] theorem loadDotenv_env (w : World) (s : State) :
    (loadDotenv w s).env = (godotenvLoad w.dotenv s.env).1 := by
  unfold loadDotenv
  simp only
  split <;> simp

@[simp] theorem loadDotenv_client (w : World) (s : State) :
    (loadDotenv w s).client = s.client := by
  unfold loadDotenv
  simp only
  split <;> simp

@[simp] theorem loadDotenv_calls (w : World) (s : State) :
    (loadDotenv w s).calls = s.calls := by
  unfold loadDotenv
  simp only
  split <;> simp

/-- The remote part of `Load` only sets variables that are unset or empty. -/
theorem Load_ext (w : World) (paths : List GoString) (s : State) :
    Ext (loadDotenv w s).env (Load w paths s).state.env := by
  unfold Load
  have he := getSsmClient_env w (loadDotenv w s)
  cases hg : getSsmClient w (loadDotenv w s) with
  | mk oc s1 =>
    rw [hg] at he
    simp only at he
    cases oc with
    | none =>
      simp only [Result.state]
      rw [he]
      exact Ext.refl _
    | some c =>
      simp only
      rw [← he]
      exact (loadPaths_frame c paths s1).2.2.2

/-! ## The claims -/

/-- C1. `Load` never overwrites a local value: whatever the `.env` file, the paths and the
remote client do (any pages, values, errors, even a panic), a variable that is set and
non-empty before `Load` has the same value in the state in which `Load` stops. -/
theorem Load_never_overwrites (w : World) (paths : List GoString) (s : State)
    (k v : GoString) (hset : LookupEnv s.env k = some v) (hv : v ≠ []) :
    LookupEnv (Load w paths s).state.env k = some v := by
  have h0 : Getenv s.env k = v := by simp [Getenv, hset]
  have h1 : Getenv s.env k ≠ [] := by rw [h0]; exact hv
  have h2 := godotenvLoad_keeps w.dotenv s.env k h1
  have h3 := (Load_ext w paths s).keeps k (by rw [loadDotenv_env, h2]; exact h1)
  rw [loadDotenv_env, h2, h0] at h3
  unfold Getenv at h3
  cases hl : LookupEnv (Load w paths s).state.env k with
  | none => rw [hl] at h3; exact absurd h3.symm hv
  | some x => rw [hl] at h3; simpa using h3

/-- C1, on the example of the specification: with `BAR=existing` beforehand and `/app/`
listing `/app/FOO=1` and `/app/BAR=2`, `BAR` is still `existing` after `Load`. -/
theorem Load_never_overwrites_witness :
    LookupEnv (initial [(str "BAR", str "existing")]).env (str "BAR") = some (str "existing") ∧
    str "existing" ≠ [] ∧
    LookupEnv (Load appWorld [str "/app/"]
      (initial [(str "BAR", str "existing")])).state.env (str "BAR") = some (str "existing") :=
  ⟨by decide, by decide,
   Load_never_overwrites appWorld [str "/app/"] (initial [(str "BAR", str "existing")])
    (str "BAR") (str "existing") (by decide) (by decide)⟩

/-- C3. `Env` is a local lookup with default: a value that is set and non-empty is returned
whatever the defaults; when the key is unset or set to the empty string the first default is
returned, or the empty string when there is none; later defaults are ignored. -/
theorem Env_lookup_with_default (s : State) (key : GoString) (defaultValue : List GoString) :
    (∀ v, LookupEnv s.env key = some v → v ≠ [] → Env s key defaultValue = v) ∧
    (LookupEnv s.env key = none ∨ LookupEnv s.env key = some [] →
      Env s key defaultValue = defaultValue.headD []) ∧
    (∀ d rest, Env s key (d :: rest) = Env s key [d]) := by
  refine ⟨?_, ?_, ?_⟩
  · intro v h hv
    simp [Env, Getenv, h, hv]
  · intro h
    have : Getenv s.env key = [] := by rcases h with h | h <;> simp [Getenv, h]
    cases defaultValue <;> simp [Env, this, def_]
  · intro d rest
    simp [Env, def_]

/-- C3, on the examples of the specification: `X` unset gives `""`, and `"d"` with the
default `"d"`; `X=v` gives `"v"` with or without a default. -/
theorem Env_lookup_with_default_witness :
    Env (initial []) (str "X") [] = [] ∧
    Env (initial []) (str "X") [str "d"] = str "d" ∧
    Env (initial [(str "X", str "v")]) (str "X") [] = str "v" ∧
    Env (initial [(str "X", str "v")]) (str "X") [str "d"] = str "v" :=
  ⟨(Env_lookup_with_default (initial []) (str "X") []).2.1 (Or.inl (by decide)),
   (Env_lookup_with_default (initial []) (str "X") [str "d"]).2.1 (Or.inl (by decide)),
   (Env_lookup_with_default (initial [(str "X", str "v")]) (str "X") []).1 (str "v")
     (by decide) (by decide),
   (Env_lookup_with_default (initial [(str "X", str "v")]) (str "X") [str "d"]).1 (str "v")
     (by decide) (by decide)⟩

theorem def__eq_headD (d : List GoString) : def_ d = d.headD [] := by
  cases d <;> rfl

theorem getSsmClient_eq (w : World) (s : State) :
    getSsmClient w s = ((getSsmClient w s).1, (getSsmClient w s).2) := rfl

/-- C4. `GetParameter` degrades to the default and returns the fetched value otherwise: with
no client available it returns (without panicking) the first default, or `""` when there is
none; so it does when the fetch returns an error; and when the fetch succeeds with a
parameter value, that value is returned unchanged, whatever the defaults. -/
theorem GetParameter_default_or_value (w : World) (s : State) (parameterName : GoString)
    (defaultValue : List GoString) :
    ((getSsmClient w s).1 = none →
      (GetParameter w parameterName defaultValue s).returns = true ∧
      (GetParameter w parameterName defaultValue s).value = some (defaultValue.headD [])) ∧
    (∀ c out err, (getSsmClient w s).1 = some c →
      c.GetParameter { Name := s.namePrefix ++ parameterName, WithDecryption := true }
        = (out, some err) →
      (GetParameter w parameterName defaultValue s).value = some (defaultValue.headD [])) ∧
    (∀ c name value, (getSsmClient w s).1 = some c →
      c.GetParameter { Name := s.namePrefix ++ parameterName, WithDecryption := true }
        = (some { Parameter := some { Name := name, Value := some value } }, none) →
      (GetParameter w parameterName defaultValue s).value = some value) := by
  have hp := getSsmClient_namePrefix w s
  refine ⟨?_, ?_, ?_⟩
  · intro h
    unfold GetParameter
    rw [getSsmClient_eq, h]
    simp [Result.returns, Result.value, def__eq_headD]
  · intro c out err h hf
    unfold GetParameter
    rw [getSsmClient_eq, h]
    simp only [hp, hf]
    simp [Result.value, def__eq_headD]
  · intro c name value h hf
    unfold GetParameter
    rw [getSsmClient_eq, h]
    simp only [hp, hf]
    simp [Result.value]

/-- C4, on examples: with no client the default `"d"` comes back, or `""` without a default;
a failing fetch gives the default; the stored `/svc/token` comes back as it is. -/
theorem GetParameter_default_or_value_witness :
    (GetParameter offlineWorld (str "token") [str "d"] (initial [])).returns = true ∧
    (GetParameter offlineWorld (str "token") [str "d"] (initial [])).value = some (str "d") ∧
    (GetParameter offlineWorld (str "token") [] (initial [])).value = some [] ∧
    (GetParameter appWorld (str "absent") [str "d", str "e"] (initial [])).value
      = some (str "d") ∧
    (GetParameter appWorld (str "/svc/token") [str "d"] (initial [])).value
      = some (str "s3cret") :=
  ⟨((GetParameter_default_or_value offlineWorld (initial []) (str "token") [str "d"]).1
      rfl).1,
   ((GetParameter_default_or_value offlineWorld (initial []) (str "token") [str "d"]).1
      rfl).2,
   ((GetParameter_default_or_value offlineWorld (initial []) (str "token") []).1
      rfl).2,
   (GetParameter_default_or_value appWorld (initial []) (str "absent")
      [str "d", str "e"]).2.1 appClient none (str "ParameterNotFound") rfl (by decide),
   (GetParameter_default_or_value appWorld (initial []) (str "/svc/token")
      [str "d"]).2.2 appClient (some (str "/svc/token")) (str "s3cret") rfl
      (by decide)⟩

/-- C5. `GetParameter` requests the prefixed key: when a client is available, the call
issues exactly one fetch, for the key made of the prefix set by `SetPrefix` followed by the
parameter name, with decryption enabled; in a process where `SetPrefix` was never called the
key is the parameter name itself. -/
theorem GetParameter_requests_prefixed_key (w : World) (s : State) (p parameterName : GoString)
    (defaultValue : List GoString) :
    ((getSsmClient w (SetPrefix p s)).1.isSome = true →
      fetches (GetParameter w parameterName defaultValue (SetPrefix p s)).state.calls
        = fetches s.calls ++ [{ Name := p ++ parameterName, WithDecryption := true }]) ∧
    (∀ env, (getSsmClient w (initial env)).1.isSome = true →
      fetches (GetParameter w parameterName defaultValue (initial env)).state.calls
        = [{ Name := parameterName, WithDecryption := true }]) := by
  have key : ∀ t : State, (getSsmClient w t).1.isSome = true →
      fetches (GetParameter w parameterName defaultValue t).state.calls
        = fetches t.calls ++ [{ Name := t.namePrefix ++ parameterName, WithDecryption := true }] := by
    intro t h
    have hp := getSsmClient_namePrefix w t
    have hf := getSsmClient_fetches w t
    unfold GetParameter
    rw [getSsmClient_eq]
    cases hc : (getSsmClient w t).1 with
    | none => rw [hc] at h; exact absurd h (by simp)
    | some c =>
      simp only [hp]
      cases hr : c.GetParameter { Name := t.namePrefix ++ parameterName, WithDecryption := true } with
      | mk out err =>
        cases err with
        | some e => simp [Result.state, fetches_append, fetches, hf]
        | none =>
          cases out with
          | none => simp [Result.state, fetches_append, fetches, hf]
          | some o =>
            simp only
            cases o.Parameter with
            | none => simp [Result.state, fetches_append, fetches, hf]
            | some prm =>
              simp only
              cases prm.Value <;> simp [Result.state, fetches_append, fetches, hf]
  exact ⟨fun h => key (SetPrefix p s) h, fun env h => by simpa [initial, fetches] using key (initial env) h⟩

/-- C5, on the example of the specification: with the prefix `/svc/`, `GetParameter("token")`
requests `/svc/token`; without `SetPrefix`, `GetParameter("token")` requests `token`. -/
theorem GetParameter_requests_prefixed_key_witness :
    (getSsmClient appWorld (SetPrefix (str "/svc/") (initial []))).1.isSome = true ∧
    fetches (GetParameter appWorld (str "token") []
        (SetPrefix (str "/svc/") (initial []))).state.calls
      = [{ Name := str "/svc/token", WithDecryption := true }] ∧
    fetches (GetParameter appWorld (str "token") [] (initial [])).state.calls
      = [{ Name := str "token", WithDecryption := true }] :=
  ⟨by decide,
   ((GetParameter_requests_prefixed_key appWorld (initial []) (str "/svc/") (str "token")
      []).1 (by decide)).trans (by decide),
   (GetParameter_requests_prefixed_key appWorld (initial []) (str "/svc/") (str "token")
      []).2 [] (by decide)⟩

/-! ## The memoised client -/

theorem getSsmClient_constructions_of_none {w : World} {s : State} (h : s.client = none) :
    constructions (getSsmClient w s).2.calls = constructions s.calls + 1 := by
  unfold getSsmClient
  rw [h]
  simp only
  cases w.LoadDefaultConfig s.env (Env s (str "AWS_REGION") [str "eu-west-3"]) <;>
    simp [constructions_append, constructions]

theorem GetParameter_frame (w : World) (n : GoString) (d : List GoString) (s : State) :
    (GetParameter w n d s).state.client = (getSsmClient w s).2.client ∧
    constructions (GetParameter w n d s).state.calls
      = constructions (getSsmClient w s).2.calls := by
  unfold GetParameter
  rw [getSsmClient_eq]
  cases (getSsmClient w s).1 with
  | none => exact ⟨rfl, rfl⟩
  | some c =>
    simp only
    cases c.GetParameter
      { Name := (getSsmClient w s).2.namePrefix ++ n, WithDecryption := true } with
    | mk out err =>
      cases err with
      | some e => simp [Result.state, constructions_append, constructions]
      | none =>
        cases out with
        | none => simp [Result.state, constructions_append, constructions]
        | some o =>
          simp only
          cases o.Parameter with
          | none => simp [Result.state, constructions_append, constructions]
          | some prm =>
            simp only
            cases prm.Value <;> simp [Result.state, constructions_append, constructions]

theorem Load_frame (w : World) (paths : List GoString) (s : State) :
    (Load w paths s).state.client = (getSsmClient w (loadDotenv w s)).2.client ∧
    constructions (Load w paths s).state.calls
      = constructions (getSsmClient w (loadDotenv w s)).2.calls := by
  unfold Load
  rw [getSsmClient_eq]
  cases (getSsmClient w (loadDotenv w s)).1 with
  | none => exact ⟨rfl, rfl⟩
  | some c =>
    simp only
    exact ⟨(loadPaths_frame c paths _).1, (loadPaths_frame c paths _).2.1⟩

theorem step_of_some {w : World} {s : State} {c : SSMClient} (op : Op)
    (h : s.client = some c) :
    (step w op s).client = some c ∧
    constructions (step w op s).calls = constructions s.calls := by
  cases op with
  | Load paths =>
    have h1 : (loadDotenv w s).client = some c := by simp [h]
    have h2 := Load_frame w paths s
    rw [getSsmClient_of_some h1] at h2
    simp only [step]
    exact ⟨h2.1.trans h1, h2.2.trans (by simp)⟩
  | GetParameter n d =>
    have h2 := GetParameter_frame w n d s
    rw [getSsmClient_of_some h] at h2
    simp only [step]
    exact ⟨h2.1.trans h, h2.2⟩

theorem step_of_none {w : World} {s : State} (op : Op) (h : s.client = none) :
    constructions (step w op s).calls = constructions s.calls + 1 := by
  cases op with
  | Load paths =>
    have h1 : (loadDotenv w s).client = none := by simp [h]
    simp only [step]
    rw [(Load_frame w paths s).2, getSsmClient_constructions_of_none h1]
    simp
  | GetParameter n d =>
    simp only [step]
    rw [(GetParameter_frame w n d s).2, getSsmClient_constructions_of_none h]

/-- C6, as the code has it.  Once a construction has succeeded, every later sequence of
`Load` and `GetParameter` calls keeps the same client, `getSsmClient` returns it, and no
construction is attempted again.  While the client is unset, each `Load` or `GetParameter`
call attempts exactly one construction, whether or not an earlier attempt failed. -/
theorem client_constructed_at_most_once (w : World) (s : State) :
    (∀ c ops, s.client = some c →
      (run w ops s).client = some c ∧
      getSsmClient w (run w ops s) = (some c, run w ops s) ∧
      constructions (run w ops s).calls = constructions s.calls) ∧
    (∀ op, s.client = none →
      constructions (step w op s).calls = constructions s.calls + 1) := by
  refine ⟨?_, fun op h => step_of_none op h⟩
  intro c ops
  induction ops generalizing s with
  | nil => exact fun h => ⟨h, getSsmClient_of_some h, rfl⟩
  | cons op rest ih =>
    intro h
    obtain ⟨h1, h2⟩ := step_of_some (w := w) op h
    obtain ⟨i1, i2, i3⟩ := ih (step w op s) h1
    exact ⟨i1, i2, i3.trans h2⟩

/-- C6, on an example: the first `GetParameter` builds `appClient`; after `Load` and a
second `GetParameter` the client is the same and one construction was attempted in all. -/
theorem client_constructed_at_most_once_witness :
    (step appWorld (.GetParameter (str "token") []) (initial [])).client = some appClient ∧
    (run appWorld [.Load [str "/app/"], .GetParameter (str "token") []]
      (step appWorld (.GetParameter (str "token") []) (initial []))).client = some appClient ∧
    constructions (run appWorld [.Load [str "/app/"], .GetParameter (str "token") []]
      (step appWorld (.GetParameter (str "token") []) (initial []))).calls = 1 ∧
    constructions (step appWorld (.Load [str "/app/"]) (initial [])).calls = 1 :=
  ⟨rfl,
   ((client_constructed_at_most_once appWorld
      (step appWorld (.GetParameter (str "token") []) (initial []))).1 appClient
      [.Load [str "/app/"], .GetParameter (str "token") []] rfl).1,
   ((client_constructed_at_most_once appWorld
      (step appWorld (.GetParameter (str "token") []) (initial []))).1 appClient
      [.Load [str "/app/"], .GetParameter (str "token") []] rfl).2.2.trans (by decide),
   (client_constructed_at_most_once appWorld (initial [])).2 (.Load [str "/app/"]) rfl⟩

/-- C6 fails as stated: when the construction fails, the next call attempts it again.  With
a client that can never be built, two `GetParameter` calls make two attempts. -/
theorem construction_retried_after_failure :
    (step offlineWorld (.GetParameter (str "token") []) (initial [])).client.isNone = true ∧
    constructions (step offlineWorld (.GetParameter (str "token") []) (initial [])).calls = 1 ∧
    constructions (run offlineWorld
      [.GetParameter (str "token") [], .GetParameter (str "token") []] (initial [])).calls = 2 := by
  decide

/-! ## `Load` against the loading rule -/

@[simp] theorem applyItems_nil (E : Environ) : applyItems E [] = E := rfl

@[simp] theorem applyItems_cons (E : Environ) (i : Item) (rest : List Item) :
    applyItems E (i :: rest) = applyItems (applyItem E i) rest := rfl

theorem applyItems_append (E : Environ) (a b : List Item) :
    applyItems E (a ++ b) = applyItems (applyItems E a) b := by
  simp [applyItems, List.foldl_append]

theorem wellFormed_iff {path : GoString} {p : Parameter} (h : p.wellFormed path = true) :
    ∃ n v, p.Name = some n ∧ p.Value = some v ∧ path.length ≤ n.length := by
  unfold Parameter.wellFormed at h
  cases hn : p.Name with
  | none => simp [hn] at h
  | some n =>
    cases hv : p.Value with
    | none => simp [hn, hv] at h
    | some v => exact ⟨n, v, rfl, rfl, by simpa [hn, hv] using h⟩

/-- On well-formed parameters the inner loop runs to its end and applies the loading rule
to each of them in turn. -/
theorem loadParameters_wellFormed (path : GoString) (ps : List Parameter) :
    ∀ (s : State) (count : Nat), (∀ p ∈ ps, p.wellFormed path = true) →
      ∃ s2 c2, loadParameters path ps s count = .next s2 c2 ∧
        s2.env = applyItems s.env (strip path ps) ∧ s2.calls = s.calls := by
  induction ps with
  | nil => intro s count _; exact ⟨s, count, rfl, rfl, rfl⟩
  | cons param rest ih =>
    intro s count hw
    obtain ⟨n, v, hn, hv, hlen⟩ := wellFormed_iff (hw param (List.mem_cons_self _ _))
    have hrest : ∀ p ∈ rest, p.wellFormed path = true :=
      fun p hp => hw p (List.mem_cons_of_mem _ hp)
    unfold loadParameters
    simp only [hn, hv, strip, Nat.not_lt.mpr hlen, if_false, applyItems_cons]
    by_cases hg : Getenv s.env (List.drop path.length n) = []
    · obtain ⟨s2, c2, h1, h2, h3⟩ :=
        ih { verboseLog s (.loadedParameter (List.drop path.length n)) with
             env := Setenv (verboseLog s (.loadedParameter (List.drop path.length n))).env
                      (List.drop path.length n) v } (count + 1) hrest
      refine ⟨s2, c2, ?_, ?_, ?_⟩
      · simpa [hg] using h1
      · simpa [applyItem, hg] using h2
      · simpa using h3
    · obtain ⟨s2, c2, h1, h2, h3⟩ := ih s count hrest
      refine ⟨s2, c2, ?_, ?_, h3⟩
      · simpa [hg] using h1
      · simpa [applyItem, hg] using h2

theorem wellFormedPages_cons {path : GoString} {page : GetParametersByPathOutput}
    {rest : List GetParametersByPathOutput} (h : wellFormedPages path (page :: rest) = true) :
    (∀ p ∈ page.Parameters, p.wellFormed path = true) ∧ wellFormedPages path rest = true := by
  simpa [wellFormedPages] using h

/-- Error-free pages of well-formed parameters are all requested and applied in order; the
page loop then goes on with what follows them. -/
theorem loadPages_okPages (path : GoString) (good : List GetParametersByPathOutput)
    (tail : Paginator) :
    ∀ (s : State) (count : Nat), wellFormedPages path good = true →
      ∃ s2 c2, loadPages path (okPages good ++ tail) s count = loadPages path tail s2 c2 ∧
        s2.env = applyItems s.env (pageItems path good) ∧
        pageRequests s2.calls = pageRequests s.calls ++ List.replicate good.length path := by
  induction good with
  | nil => intro s count _; exact ⟨s, count, rfl, rfl, by simp⟩
  | cons page rest ih =>
    intro s count hw
    obtain ⟨hpage, hrest⟩ := wellFormedPages_cons hw
    obtain ⟨s1, c1, h1, h2, h3⟩ := loadParameters_wellFormed path page.Parameters
      { s with calls := s.calls ++ [Call.NextPage path] } count hpage
    obtain ⟨s2, c2, i1, i2, i3⟩ := ih s1 c1 hrest
    refine ⟨s2, c2, ?_, ?_, ?_⟩
    · rw [← i1]
      simp only [okPages, List.map_cons, List.cons_append]
      rw [loadPages]
      simp only [h1]
    · rw [i2, h2]
      simp [pageItems, applyItems_append]
    · rw [i3, h3]
      simp [pageRequests_append, pageRequests, List.replicate_succ]

/-- Paths whose listings are error-free and well formed are processed in order; the path
loop then goes on with the paths that follow. -/
theorem loadPaths_okPages (c : SSMClient) (remote : GoString → List GetParametersByPathOutput)
    (before rest : List GoString)
    (hb : ∀ q ∈ before,
      c.GetParametersByPathPaginator { Path := q, Recursive := true, WithDecryption := true }
        = some (okPages (remote q)) ∧ wellFormedPages q (remote q) = true) :
    ∀ (s : State), ∃ s2, loadPaths c (before ++ rest) s = loadPaths c rest s2 ∧
      s2.env = applyItems s.env (items remote before) ∧
      pageRequests s2.calls = pageRequests s.calls ++ requestsFor remote before := by
  induction before with
  | nil => intro s; exact ⟨s, rfl, rfl, by simp [requestsFor]⟩
  | cons q more ih =>
    intro s
    obtain ⟨hq, hqw⟩ := hb q (List.mem_cons_self _ _)
    have hmore := fun x hx => hb x (List.mem_cons_of_mem _ hx)
    obtain ⟨s1, c1, h1, h2, h3⟩ := loadPages_okPages q (remote q) []
      { s with calls := s.calls ++ [Call.GetParametersByPathPaginator
          { Path := q, Recursive := true, WithDecryption := true }] } 0 hqw
    obtain ⟨s2, i1, i2, i3⟩ :=
      ih hmore (if c1 = 0 then verboseLog s1 (.noParametersLoaded q) else s1)
    have e2 : (if c1 = 0 then verboseLog s1 (.noParametersLoaded q) else s1).calls
        = s1.calls := by split <;> simp
    have e3 : (if c1 = 0 then verboseLog s1 (.noParametersLoaded q) else s1).env
        = s1.env := by split <;> simp
    refine ⟨s2, ?_, ?_, ?_⟩
    · rw [← i1]
      simp only [List.cons_append]
      rw [loadPaths]
      simp only [hq]
      rw [List.append_nil] at h1
      rw [h1]
      simp [loadPages]
    · rw [i2, e3, h2]
      simp [items, applyItems_append]
    · rw [i3, e2, h3]
      simp [requestsFor, pageRequests_append, pageRequests]

/-- C7. A page error aborts the whole `Load` and keeps what was already applied: when the
paths before path `N` list without error, and the listing of `N` delivers the pages `good`
and then fails, `Load` returns; the environment is the one obtained from the environment
left by the `.env` step by applying the loading rule, in order, to all pages of the earlier
paths and to `good`; and the page requests made are one per page of the earlier paths, then
`good.length + 1` for `N`: no later page of `N`, no page of a later path. -/
theorem Load_aborts_on_page_error (w : World) (s : State) (c : SSMClient)
    (remote : GoString → List GetParametersByPathOutput) (before after : List GoString)
    (N : GoString) (good : List GetParametersByPathOutput)
    (page : Option GetParametersByPathOutput) (err : Error) (later : Paginator)
    (hc : (getSsmClient w (loadDotenv w s)).1 = some c)
    (hb : ∀ q ∈ before,
      c.GetParametersByPathPaginator { Path := q, Recursive := true, WithDecryption := true }
        = some (okPages (remote q)) ∧ wellFormedPages q (remote q) = true)
    (hN : c.GetParametersByPathPaginator
        { Path := N, Recursive := true, WithDecryption := true }
        = some (okPages good ++ (page, some err) :: later))
    (hg : wellFormedPages N good = true) :
    (Load w (before ++ N :: after) s).returns = true ∧
    (Load w (before ++ N :: after) s).state.env
      = applyItems (godotenvLoad w.dotenv s.env).1 (items remote before ++ pageItems N good) ∧
    pageRequests (Load w (before ++ N :: after) s).state.calls
      = pageRequests s.calls ++ requestsFor remote before
          ++ List.replicate (good.length + 1) N := by
  have he := getSsmClient_env w (loadDotenv w s)
  have hcalls : pageRequests (getSsmClient w (loadDotenv w s)).2.calls = pageRequests s.calls := by
    unfold getSsmClient
    cases (loadDotenv w s).client with
    | some c => simp
    | none =>
      simp only
      cases w.LoadDefaultConfig (loadDotenv w s).env
          (Env (loadDotenv w s) (str "AWS_REGION") [str "eu-west-3"]) <;>
        simp [pageRequests_append, pageRequests]
  unfold Load
  rw [getSsmClient_eq, hc]
  simp only
  obtain ⟨s2, h1, h2, h3⟩ :=
    loadPaths_okPages c remote before (N :: after) hb (getSsmClient w (loadDotenv w s)).2
  obtain ⟨s3, c3, i1, i2, i3⟩ := loadPages_okPages N good ((page, some err) :: later)
      { s2 with calls := s2.calls ++ [Call.GetParametersByPathPaginator
          { Path := N, Recursive := true, WithDecryption := true }] } 0 hg
  have hfin : loadPaths c (N :: after) s2
      = .ok () (verboseLog { s3 with calls := s3.calls ++ [Call.NextPage N] }
          (.errorGettingParameters err)) := by
    rw [loadPaths]
    simp only [hN]
    rw [i1]
    simp [loadPages]
  rw [h1, hfin]
  refine ⟨rfl, ?_, ?_⟩
  · simp only [Result.state, verboseLog_env]
    rw [i2, h2, he, loadDotenv_env, applyItems_append]
  · simp only [Result.state, verboseLog_calls]
    rw [pageRequests_append, i3, pageRequests_append, h3, hcalls]
    simp [pageRequests, List.replicate_succ', List.append_assoc]

/-- C7, on an example: `Load("/app/", "/db/", "/zzz/")` when the second page of `/db/`
fails keeps `FOO`, `BAR` (from `/app/`) and `HOST` (first page of `/db/`), never sets `PORT`,
and requests one page of `/app/`, two of `/db/` and none of `/zzz/`. -/
theorem Load_aborts_on_page_error_witness :
    (Load flakyWorld [str "/app/", str "/db/", str "/zzz/"] (initial [])).returns = true ∧
    (Load flakyWorld [str "/app/", str "/db/", str "/zzz/"] (initial [])).state.env
      = [(str "FOO", str "1"), (str "BAR", str "2"), (str "HOST", str "h")] ∧
    pageRequests (Load flakyWorld [str "/app/", str "/db/", str "/zzz/"] (initial [])).state.calls
      = [str "/app/", str "/db/", str "/db/"] :=
  have h := Load_aborts_on_page_error flakyWorld (initial []) flakyClient appRemote
    [str "/app/"] [str "/zzz/"] (str "/db/") [dbPage] none (str "ThrottlingException")
    [(some { Parameters := [⟨some (str "/db/PORT"), some (str "5432")⟩] }, none)]
    rfl (by decide) (by decide) (by decide)
  ⟨h.1, h.2.1.trans (by decide), h.2.2.trans (by decide)⟩

/-! ## Panics -/

theorem usable_of_getSsmClient {w : World} {s : State} {c : SSMClient}
    (h : (getSsmClient w s).1 = some c) : usable w s c := by
  unfold getSsmClient at h
  cases hs : s.client with
  | some c0 =>
    rw [hs] at h
    simp only [Option.some.injEq] at h
    exact Or.inl (by rw [← h]; exact hs)
  | none =>
    rw [hs] at h
    simp only at h
    cases hl : w.LoadDefaultConfig s.env (Env s (str "AWS_REGION") [str "eu-west-3"]) with
    | error e => simp [hl] at h
    | ok c1 =>
      simp only [hl, Option.some.injEq] at h
      exact Or.inr ⟨_, _, by rw [hl, h]⟩

theorem loadPages_safe (path : GoString) (pg : Paginator) :
    ∀ (s : State) (count : Nat), pg.all (pageSafe path) = true →
      ∀ p s2, loadPages path pg s count ≠ .panic p s2 := by
  induction pg with
  | nil => intro s count _ p s2 h; simp [loadPages] at h
  | cons entry rest ih =>
    intro s count hs p s2
    obtain ⟨page, err⟩ := entry
    simp only [List.all_cons, Bool.and_eq_true] at hs
    obtain ⟨hentry, hrest⟩ := hs
    unfold loadPages
    cases err with
    | some e => simp
    | none =>
      cases page with
      | none => simp [pageSafe] at hentry
      | some page =>
        simp only [pageSafe, List.all_eq_true] at hentry
        obtain ⟨s1, c1, h1, _, _⟩ := loadParameters_wellFormed path page.Parameters
          { s with calls := s.calls ++ [Call.NextPage path] } count hentry
        simp only [h1]
        exact ih s1 c1 hrest p s2

theorem loadPaths_safe (c : SSMClient) (paths : List GoString)
    (h : ∀ q ∈ paths, paginatorSafe q (c.GetParametersByPathPaginator
      { Path := q, Recursive := true, WithDecryption := true }) = true) :
    ∀ s : State, (loadPaths c paths s).returns = true := by
  induction paths with
  | nil => intro s; rfl
  | cons q rest ih =>
    intro s
    have hq := h q (List.mem_cons_self _ _)
    have hrest := fun x hx => h x (List.mem_cons_of_mem _ hx)
    unfold loadPaths
    simp only
    cases hp : c.GetParametersByPathPaginator
        { Path := q, Recursive := true, WithDecryption := true } with
    | none => simp [hp, paginatorSafe] at hq
    | some pg =>
      rw [hp] at hq
      simp only [paginatorSafe] at hq
      simp only
      cases hr : loadPages q pg
        { s with calls := s.calls ++ [Call.GetParametersByPathPaginator
            { Path := q, Recursive := true, WithDecryption := true }] } 0 with
      | next s2 c2 => exact ih hrest _
      | ret s2 => rfl
      | panic p s2 => exact absurd hr (loadPages_safe q pg _ 0 hq p s2)

/-- C8, as the code has it.  When every client the package can come to use answers in a
well-formed way (a listing is a paginator whose results are errors or pages of parameters
that carry a name at least as long as the path and a value; a fetch by name is an error or
carries a parameter with a value), `Load` and `GetParameter` return without panicking;
`GetParameter` returns the default (or `""`) when `getSsmClient` returns no client and when
the fetch on the client it returns fails, and the fetched value when that fetch succeeds.
(`Env` is a total function of the state: it has no failing outcome at all.) -/
theorem no_panic_on_wellFormed_answers (w : World) (s : State) (paths : List GoString)
    (parameterName : GoString) (defaultValue : List GoString)
    (hlist : ∀ c, usable w s c → ∀ q ∈ paths, paginatorSafe q
      (c.GetParametersByPathPaginator
        { Path := q, Recursive := true, WithDecryption := true }) = true)
    (hfetch : ∀ c, usable w s c → outputSafe
      (c.GetParameter { Name := s.namePrefix ++ parameterName, WithDecryption := true })
        = true) :
    (Load w paths s).returns = true ∧
    (GetParameter w parameterName defaultValue s).returns = true ∧
    ((getSsmClient w s).1 = none →
      (GetParameter w parameterName defaultValue s).value = some (defaultValue.headD [])) ∧
    (∀ c out err, (getSsmClient w s).1 = some c →
      c.GetParameter { Name := s.namePrefix ++ parameterName, WithDecryption := true }
        = (out, some err) →
      (GetParameter w parameterName defaultValue s).value = some (defaultValue.headD [])) ∧
    (∀ c out, (getSsmClient w s).1 = some c →
      c.GetParameter { Name := s.namePrefix ++ parameterName, WithDecryption := true }
        = (some out, none) →
      ∃ value, out.Parameter.bind Parameter.Value = some value ∧
        (GetParameter w parameterName defaultValue s).value = some value) := by
  have hp := getSsmClient_namePrefix w s
  refine ⟨?_, ?_, ?_, ?_, ?_⟩
  · unfold Load
    rw [getSsmClient_eq]
    cases hc : (getSsmClient w (loadDotenv w s)).1 with
    | none => rfl
    | some c =>
      have hu : usable w s c := by
        rcases usable_of_getSsmClient hc with h | h
        · exact Or.inl (by simpa using h)
        · exact Or.inr h
      exact loadPaths_safe c paths (hlist c hu) _
  · unfold GetParameter
    rw [getSsmClient_eq]
    cases hc : (getSsmClient w s).1 with
    | none => rfl
    | some c =>
      have hs := hfetch c (usable_of_getSsmClient hc)
      simp only [hp]
      cases hr : c.GetParameter
          { Name := s.namePrefix ++ parameterName, WithDecryption := true } with
      | mk out err =>
        rw [hr] at hs
        cases err with
        | some e => simp [Result.returns]
        | none =>
          cases out with
          | none => simp [outputSafe] at hs
          | some o =>
            simp only [outputSafe] at hs
            simp only
            cases ho : o.Parameter with
            | none => simp [ho] at hs
            | some prm =>
              simp only [ho] at hs
              simp only
              cases hv : prm.Value with
              | none => simp [hv] at hs
              | some v => simp [Result.returns]
  · intro h
    unfold GetParameter
    rw [getSsmClient_eq, h]
    simp [Result.value, def__eq_headD]
  · intro c out err h hf
    unfold GetParameter
    rw [getSsmClient_eq, h]
    simp only [hp, hf]
    simp [Result.value, def__eq_headD]
  · intro c out h hf
    have hs := hfetch c (usable_of_getSsmClient h)
    rw [hf] at hs
    simp only [outputSafe] at hs
    unfold GetParameter
    rw [getSsmClient_eq, h]
    simp only [hp, hf]
    cases ho : out.Parameter with
    | none => simp [ho] at hs
    | some prm =>
      simp only [ho] at hs
      cases hv : prm.Value with
      | none => simp [hv] at hs
      | some v => exact ⟨v, by simp [hv], by simp [Result.value, hv]⟩

/-- C8, on an example: `appClient` answers in a well-formed way; `Load("/app/")` and
`GetParameter("absent", "d")` return, the failing fetch of `absent` gives the default `d`,
and with the prefix `/svc/` the fetch of `token` gives the stored `s3cret`. -/
theorem no_panic_on_wellFormed_answers_witness :
    (Load appWorld [str "/app/"] (initial [])).returns = true ∧
    (GetParameter appWorld (str "absent") [str "d"] (initial [])).returns = true ∧
    (GetParameter appWorld (str "absent") [str "d"] (initial [])).value = some (str "d") ∧
    (GetParameter appWorld (str "token") [str "d"]
      (SetPrefix (str "/svc/") (initial []))).value = some (str "s3cret") :=
  have hsafe : ∀ (t : State), t.client = none →
      ∀ c, usable appWorld t c → c = appClient := by
    rintro t ht c (hc | ⟨env, region, hc⟩)
    · rw [ht] at hc
      exact absurd hc (by simp)
    · simp only [appWorld, Except.ok.injEq] at hc
      exact hc.symm
  have h := no_panic_on_wellFormed_answers appWorld (initial []) [str "/app/"] (str "absent")
    [str "d"]
    (by
      intro c hc
      rw [hsafe (initial []) rfl c hc]
      decide)
    (by
      intro c hc
      rw [hsafe (initial []) rfl c hc]
      decide)
  have h2 := no_panic_on_wellFormed_answers appWorld (SetPrefix (str "/svc/") (initial []))
    [str "/app/"] (str "token") [str "d"]
    (by
      intro c hc
      rw [hsafe (SetPrefix (str "/svc/") (initial [])) rfl c hc]
      decide)
    (by
      intro c hc
      rw [hsafe (SetPrefix (str "/svc/") (initial [])) rfl c hc]
      decide)
  ⟨h.1, h.2.1,
   h.2.2.2.1 appClient none (str "ParameterNotFound") rfl (by decide),
   by
     obtain ⟨value, hv, hval⟩ := h2.2.2.2.2 appClient
       { Parameter := some ⟨some (str "/svc/token"), some (str "s3cret")⟩ } rfl (by decide)
     rw [hval, ← hv]
     decide⟩

/-- C8 fails as stated: `Load` panics on a listed parameter whose name is shorter than the
path (`/a` under `/app/`), and `GetParameter` panics on an answer without error and without
a parameter. -/
theorem panic_on_malformed_answers :
    (Load brokenWorld [str "/app/"] (initial [])).returns = false ∧
    (GetParameter brokenWorld (str "token") [str "d"] (initial [])).returns = false := by
  decide

/-! ## Which remote value a variable gets -/

theorem applyItem_ext (E : Environ) (i : Item) : Ext E (applyItem E i) := by
  unfold applyItem
  split
  · exact Ext.refl E
  · rename_i h
    exact Ext.single i.1 i.2 (by simpa using h)

theorem applyItems_ext (l : List Item) : ∀ E : Environ, Ext E (applyItems E l) := by
  induction l with
  | nil => exact fun E => Ext.refl E
  | cons i rest ih => exact fun E => Ext.trans (applyItem_ext E i) (ih _)

/-- A settable, non-empty value applied to a variable that is unset or empty at that
moment is the value of the variable from then on. -/
theorem applyItems_sets (E : Environ) (pre post : List Item) (x v : GoString)
    (hx : Getenv (applyItems E pre) x = []) (hok : settable x v = true) (hv : v ≠ []) :
    Getenv (applyItems E (pre ++ (x, v) :: post)) x = v := by
  rw [applyItems_append, applyItems_cons]
  have h1 : Getenv (applyItem (applyItems E pre) (x, v)) x = v := by
    simp [applyItem, hx, Getenv_Setenv_same _ hok]
  rw [(applyItems_ext post _).keeps x (by rw [h1]; exact hv), h1]

/-- Items that carry the empty value for `x`, or another name, leave `x` unset or empty. -/
theorem applyItems_stays_empty (x : GoString) (pre : List Item) :
    ∀ E : Environ, Getenv E x = [] → (∀ i ∈ pre, i.1 = x → i.2 = []) →
      Getenv (applyItems E pre) x = [] := by
  induction pre with
  | nil => exact fun E h _ => h
  | cons i rest ih =>
    intro E hE hpre
    rw [applyItems_cons]
    refine ih _ ?_ (fun j hj => hpre j (List.mem_cons_of_mem _ hj))
    unfold applyItem
    split
    · exact hE
    · by_cases hi : i.1 = x
      · have hval := hpre i (List.mem_cons_self _ _) hi
        rw [hval, hi]
        by_cases hs : settable x [] = true
        · exact Getenv_Setenv_same E hs
        · simp [Setenv, hs, hE]
      · rw [Getenv_Setenv_ne _ _ (Ne.symm hi)]
        exact hE

theorem mem_strip {path : GoString} {ps : List Parameter} {n v : GoString}
    (h : (⟨some n, some v⟩ : Parameter) ∈ ps) : (n.drop path.length, v) ∈ strip path ps := by
  induction ps with
  | nil => simp at h
  | cons p rest ih =>
    rcases List.mem_cons.mp h with h | h
    · subst h
      simp [strip]
    · have := ih h
      unfold strip
      split <;> simp [this]

theorem mem_pageItems {path : GoString} {pages : List GetParametersByPathOutput}
    {page : GetParametersByPathOutput} {i : Item}
    (hp : page ∈ pages) (hi : i ∈ strip path page.Parameters) : i ∈ pageItems path pages := by
  induction pages with
  | nil => simp at hp
  | cons p rest ih =>
    rcases List.mem_cons.mp hp with h | h
    · subst h
      simp [pageItems, hi]
    · simp [pageItems, ih h]

theorem mem_items {remote : GoString → List GetParametersByPathOutput} {paths : List GoString}
    {q : GoString} {i : Item} (hq : q ∈ paths) (hi : i ∈ pageItems q (remote q)) :
    i ∈ items remote paths := by
  induction paths with
  | nil => simp at hq
  | cons p rest ih =>
    rcases List.mem_cons.mp hq with h | h
    · subst h
      simp [items, hi]
    · simp [items, ih h]

/-- When the client is available and every listing is error-free and well formed, `Load`
returns, and the environment is the one the loading rule gives on the listed parameters in
processing order, starting from the environment left by the `.env` step. -/
theorem Load_eq_applyItems (w : World) (s : State) (c : SSMClient)
    (remote : GoString → List GetParametersByPathOutput) (paths : List GoString)
    (hc : (getSsmClient w (loadDotenv w s)).1 = some c)
    (hp : ∀ q ∈ paths,
      c.GetParametersByPathPaginator { Path := q, Recursive := true, WithDecryption := true }
        = some (okPages (remote q)) ∧ wellFormedPages q (remote q) = true) :
    (Load w paths s).returns = true ∧
    (Load w paths s).state.env
      = applyItems (godotenvLoad w.dotenv s.env).1 (items remote paths) := by
  have he := getSsmClient_env w (loadDotenv w s)
  unfold Load
  rw [getSsmClient_eq, hc]
  simp only
  obtain ⟨s2, h1, h2, _⟩ :=
    loadPaths_okPages c remote paths [] hp (getSsmClient w (loadDotenv w s)).2
  rw [List.append_nil] at h1
  rw [h1]
  simp only [loadPaths, Result.returns, Result.state, true_and]
  rw [h2, he, loadDotenv_env]

/-- C2, as the code has it.  When the client is available and every listing is error-free
and well formed: every parameter returned under a given path is processed as an item
(name with the path prefix stripped, value); and for every such item, if its variable is
unset or empty at the moment the item is processed (after the `.env` step and the items
before it), `Setenv` accepts the name and the value, and the value is non-empty, then after
`Load` the variable holds that value. -/
theorem Load_sets_unset_keys (w : World) (s : State) (c : SSMClient)
    (remote : GoString → List GetParametersByPathOutput) (paths : List GoString)
    (hc : (getSsmClient w (loadDotenv w s)).1 = some c)
    (hp : ∀ q ∈ paths,
      c.GetParametersByPathPaginator { Path := q, Recursive := true, WithDecryption := true }
        = some (okPages (remote q)) ∧ wellFormedPages q (remote q) = true) :
    (∀ q ∈ paths, ∀ page ∈ remote q, ∀ n v,
      (⟨some n, some v⟩ : Parameter) ∈ page.Parameters →
      (n.drop q.length, v) ∈ items remote paths) ∧
    (∀ pre post x v, items remote paths = pre ++ (x, v) :: post →
      Getenv (applyItems (godotenvLoad w.dotenv s.env).1 pre) x = [] →
      settable x v = true → v ≠ [] →
      Getenv (Load w paths s).state.env x = v) := by
  refine ⟨?_, ?_⟩
  · intro q hq page hpage n v hmem
    exact mem_items hq (mem_pageItems hpage (mem_strip hmem))
  · intro pre post x v hsplit hx hok hv
    rw [(Load_eq_applyItems w s c remote paths hc hp).2, hsplit]
    exact applyItems_sets _ pre post x v hx hok hv

/-- C2, on the example of the specification: `/app/` lists `/app/FOO=1` and `/app/BAR=2`,
neither `FOO` nor `BAR` is set beforehand, and `Load("/app/")` gives `FOO=1` and `BAR=2`. -/
theorem Load_sets_unset_keys_witness :
    LookupEnv (initial []).env (str "FOO") = none ∧
    LookupEnv (initial []).env (str "BAR") = none ∧
    Getenv (Load appWorld [str "/app/"] (initial [])).state.env (str "FOO") = str "1" ∧
    Getenv (Load appWorld [str "/app/"] (initial [])).state.env (str "BAR") = str "2" :=
  have h := (Load_sets_unset_keys appWorld (initial []) appClient appRemote [str "/app/"]
    rfl (by decide)).2
  ⟨by decide, by decide,
   h [] [(str "BAR", str "2")] (str "FOO") (str "1") (by decide) (by decide) (by decide)
     (by decide),
   h [(str "FOO", str "1")] [] (str "BAR") (str "2") (by decide) (by decide) (by decide)
     (by decide)⟩

/-- C2 fails as stated: `/common/FOO=2` is returned under the path `/common/` and `FOO` is
unset before `Load("/app/", "/common/")`, no page fetch fails, yet after `Load` the variable
`FOO` holds `1`, the value of `/app/FOO`, not `2`. -/
theorem later_parameter_not_loaded :
    LookupEnv (initial []).env (str "FOO") = none ∧
    (⟨some (str "/common/FOO"), some (str "2")⟩ : Parameter) ∈
      (appRemote (str "/common/")).flatMap (fun page => page.Parameters) ∧
    appClient.GetParametersByPathPaginator
      { Path := str "/common/", Recursive := true, WithDecryption := true }
      = some (okPages (appRemote (str "/common/"))) ∧
    (Load appWorld [str "/app/", str "/common/"] (initial [])).returns = true ∧
    Getenv (Load appWorld [str "/app/", str "/common/"] (initial [])).state.env (str "FOO")
      = str "1" ∧
    Getenv (Load appWorld [str "/app/", str "/common/"] (initial [])).state.env (str "FOO")
      ≠ str "2" := by
  decide

/-- C9, as the code has it.  When the client is available and every listing is error-free
and well formed, a variable that is unset or empty once the `.env` step is done gets the
value of the first parameter in processing order that produces its name with a non-empty
value, provided `Setenv` accepts that name and value. -/
theorem first_remote_value_wins (w : World) (s : State) (c : SSMClient)
    (remote : GoString → List GetParametersByPathOutput) (paths : List GoString)
    (x v : GoString)
    (hc : (getSsmClient w (loadDotenv w s)).1 = some c)
    (hp : ∀ q ∈ paths,
      c.GetParametersByPathPaginator { Path := q, Recursive := true, WithDecryption := true }
        = some (okPages (remote q)) ∧ wellFormedPages q (remote q) = true)
    (hx : Getenv (godotenvLoad w.dotenv s.env).1 x = [])
    (hfirst : (items remote paths).find? (fun i => decide (i.1 = x ∧ i.2 ≠ [])) = some (x, v))
    (hok : settable x v = true) :
    Getenv (Load w paths s).state.env x = v := by
  obtain ⟨hpv, pre, post, hsplit, hpre⟩ := List.find?_eq_some.mp hfirst
  have hv : v ≠ [] := by simpa using hpv
  have hempty : ∀ i ∈ pre, i.1 = x → i.2 = [] := by
    intro i hi hix
    have := hpre i hi
    simpa [hix] using this
  rw [(Load_eq_applyItems w s c remote paths hc hp).2, hsplit]
  exact applyItems_sets _ pre post x v (applyItems_stays_empty x pre _ hx hempty) hok hv

/-- C9, on an example: `FOO` is unset, `/app/FOO=1` and `/common/FOO=2` both produce it, and
after `Load("/app/", "/common/")` it holds `1`; with the paths swapped it holds `2`. -/
theorem first_remote_value_wins_witness :
    Getenv (godotenvLoad appWorld.dotenv (initial []).env).1 (str "FOO") = [] ∧
    Getenv (Load appWorld [str "/app/", str "/common/"] (initial [])).state.env (str "FOO")
      = str "1" ∧
    Getenv (Load appWorld [str "/common/", str "/app/"] (initial [])).state.env (str "FOO")
      = str "2" :=
  ⟨by decide,
   first_remote_value_wins appWorld (initial []) appClient appRemote
     [str "/app/", str "/common/"] (str "FOO") (str "1") rfl (by decide) (by decide)
     (by decide) (by decide),
   first_remote_value_wins appWorld (initial []) appClient appRemote
     [str "/common/", str "/app/"] (str "FOO") (str "2") rfl (by decide) (by decide)
     (by decide) (by decide)⟩

/-- C9 fails as stated: `FOO` is unset before `Load`, no page fetch fails, and `/app/FOO=1`
and `/common/FOO=2` both produce `FOO` with non-empty values; but the `.env` file holds
`FOO=local`, and after `Load("/app/", "/common/")` the variable holds `local`, not `1`. -/
theorem dotenv_value_beats_remote :
    LookupEnv (initial []).env (str "FOO") = none ∧
    (items appRemote [str "/app/", str "/common/"]).filter (fun i => decide (i.1 = str "FOO"))
      = [(str "FOO", str "1"), (str "FOO", str "2")] ∧
    (Load dotenvWorld [str "/app/", str "/common/"] (initial [])).returns = true ∧
    Getenv (Load dotenvWorld [str "/app/", str "/common/"] (initial [])).state.env (str "FOO")
      = str "local" ∧
    Getenv (Load dotenvWorld [str "/app/", str "/common/"] (initial [])).state.env (str "FOO")
      ≠ str "1" := by
  decide

/-! ## A second `Load` -/

theorem Quiet_Setenv_self {E : Environ} (k v : GoString) :
    Quiet (Setenv E k v) k v := by
  by_cases hs : settable k v = true
  · exact Or.inr (Or.inr (by simp [Setenv, hs, find_store_same]))
  · exact Or.inr (Or.inl (by simpa using hs))

theorem Quiet_step {E : Environ} {k v : GoString} (k2 v2 : GoString) (h : Quiet E k v)
    (h2 : Getenv E k2 = []) : Quiet (Setenv E k2 v2) k v := by
  rcases h with h | h | h
  · left
    rw [Getenv_Setenv_keep v2 h2 h]
    exact h
  · exact Or.inr (Or.inl h)
  · by_cases hs : settable k2 v2 = true
    · by_cases hk : k = k2
      · subst hk
        have hne := settable_ne_nil hs
        have hv : v = [] := by
          have : Getenv E k = v := by simp [Getenv, LookupEnv, hne, h]
          rw [← this]; exact h2
        subst hv
        by_cases hv2 : v2 = []
        · subst hv2
          exact Or.inr (Or.inr (by simp [Setenv, hs, find_store_same]))
        · left
          rw [Getenv_Setenv_same E hs]
          exact hv2
      · right; right
        simp only [Setenv, hs, if_true]
        rw [find_store_ne v2 E hk]
        exact h
    · have : Setenv E k2 v2 = E := by simp [Setenv, hs]
      rw [this]
      exact Or.inr (Or.inr h)

theorem Quiet_ext {E E2 : Environ} {k v : GoString} (h : Quiet E k v) (hext : Ext E E2) :
    Quiet E2 k v := by
  induction hext with
  | refl => exact h
  | step k2 v2 _ hk2 ih => exact Quiet_step k2 v2 ih hk2

theorem Quiet_use {E : Environ} {k v : GoString} (h : Quiet E k v) (hk : Getenv E k = []) :
    Setenv E k v = E := by
  rcases h with h | h | h
  · exact absurd hk h
  · simp [Setenv, h]
  · unfold Setenv
    split
    · exact store_eq_self h
    · rfl

/-- In a state where the variable of `param` is set and non-empty, `param` is skipped. -/
theorem loadParameters_skip {path n : GoString} {param : Parameter} (rest : List Parameter)
    (t : State) (c : Nat) (hn : param.Name = some n) (hlen : ¬ n.length < path.length)
    (hg : Getenv t.env (n.drop path.length) ≠ []) :
    loadParameters path (param :: rest) t c = loadParameters path rest t c := by
  rw [loadParameters]
  simp [hn, hlen, hg]

/-- In a state where applying `param` changes nothing, the loop goes on to the next
parameter with the same environment. -/
theorem loadParameters_quiet {path n v : GoString} {param : Parameter} (rest : List Parameter)
    (t : State) (c : Nat) (hn : param.Name = some n) (hv : param.Value = some v)
    (hlen : ¬ n.length < path.length) (hq : Quiet t.env (n.drop path.length) v) :
    ∃ t2 c2, loadParameters path (param :: rest) t c = loadParameters path rest t2 c2 ∧
      t2.env = t.env := by
  by_cases hg : Getenv t.env (n.drop path.length) = []
  · refine ⟨{ verboseLog t (.loadedParameter (n.drop path.length)) with
        env := Setenv (verboseLog t (.loadedParameter (n.drop path.length))).env
                 (n.drop path.length) v }, c + 1, ?_, ?_⟩
    · rw [loadParameters]
      simp [hn, hv, hlen, hg]
    · simpa using Quiet_use hq hg
  · exact ⟨t, c, loadParameters_skip rest t c hn hlen hg, rfl⟩

/-- Running the inner loop again, from the environment it left or from one grown from it,
ends the same way and changes nothing. -/
theorem loadParameters_replay (path : GoString) (ps : List Parameter) :
    ∀ (s : State) (count : Nat),
      ((loadParameters path ps s count).continues = true → ∀ (t : State) (c : Nat),
        Ext (loadParameters path ps s count).state.env t.env →
        (loadParameters path ps t c).continues = true ∧
        (loadParameters path ps t c).state.env = t.env) ∧
      ((loadParameters path ps s count).continues = false → ∀ (t : State) (c : Nat),
        t.env = (loadParameters path ps s count).state.env →
        (loadParameters path ps t c).continues = false ∧
        (loadParameters path ps t c).state.env = t.env ∧
        (loadParameters path ps t c).panicked
          = (loadParameters path ps s count).panicked) := by
  induction ps with
  | nil =>
    intro s count
    exact ⟨fun _ t c _ => ⟨rfl, rfl⟩, fun h => by simp [loadParameters, Flow.continues] at h⟩
  | cons param rest ih =>
    intro s count
    cases hn : param.Name with
    | none =>
      have e : ∀ (t : State) (c : Nat),
          loadParameters path (param :: rest) t c = .panic .nilDereference t := by
        intro t c; rw [loadParameters]; simp [hn]
      rw [e]
      exact ⟨fun h => by simp [Flow.continues] at h,
        fun _ t c _ => by rw [e]; exact ⟨rfl, rfl, rfl⟩⟩
    | some n =>
      by_cases hlen : n.length < path.length
      · have e : ∀ (t : State) (c : Nat),
            loadParameters path (param :: rest) t c = .panic .sliceBoundsOutOfRange t := by
          intro t c; rw [loadParameters]; simp [hn, hlen]
        rw [e]
        exact ⟨fun h => by simp [Flow.continues] at h,
          fun _ t c _ => by rw [e]; exact ⟨rfl, rfl, rfl⟩⟩
      · by_cases hg : Getenv s.env (n.drop path.length) = []
        · cases hv : param.Value with
          | none =>
            have e : ∀ (t : State) (c : Nat), Getenv t.env (n.drop path.length) = [] →
                loadParameters path (param :: rest) t c
                  = .panic .nilDereference
                      (verboseLog t (.loadedParameter (n.drop path.length))) := by
              intro t c ht; rw [loadParameters]; simp [hn, hv, hlen, ht]
            rw [e s count hg]
            refine ⟨fun h => by simp [Flow.continues] at h, fun _ t c ht => ?_⟩
            simp only [Flow.state, verboseLog_env] at ht
            rw [e t c (by rw [ht]; exact hg)]
            exact ⟨rfl, by simp [Flow.state], rfl⟩
          | some v =>
            have e : loadParameters path (param :: rest) s count
                = loadParameters path rest
                    { verboseLog s (.loadedParameter (n.drop path.length)) with
                      env := Setenv (verboseLog s (.loadedParameter (n.drop path.length))).env
                        (n.drop path.length) v } (count + 1) := by
              rw [loadParameters]; simp [hn, hv, hlen, hg]
            rw [e]
            have hfr := (loadParameters_frame path rest
              { verboseLog s (.loadedParameter (n.drop path.length)) with
                env := Setenv (verboseLog s (.loadedParameter (n.drop path.length))).env
                  (n.drop path.length) v } (count + 1)).2.2
            have hq := Quiet_ext
              (Quiet_Setenv_self
                (E := (verboseLog s (.loadedParameter (n.drop path.length))).env)
                (n.drop path.length) v) hfr
            obtain ⟨ih1, ih2⟩ := ih
              { verboseLog s (.loadedParameter (n.drop path.length)) with
                env := Setenv (verboseLog s (.loadedParameter (n.drop path.length))).env
                  (n.drop path.length) v } (count + 1)
            refine ⟨fun h t c ht => ?_, fun h t c ht => ?_⟩
            · obtain ⟨t2, c2, e2, he2⟩ :=
                loadParameters_quiet rest t c hn hv hlen (Quiet_ext hq ht)
              rw [e2]
              have := ih1 h t2 c2 (by rw [he2]; exact ht)
              rw [he2] at this
              exact this
            · obtain ⟨t2, c2, e2, he2⟩ :=
                loadParameters_quiet rest t c hn hv hlen (by rw [ht]; exact hq)
              rw [e2]
              have := ih2 h t2 c2 (by rw [he2]; exact ht)
              rw [he2] at this
              exact this
        · have e := loadParameters_skip rest s count hn hlen hg
          rw [e]
          have hfr := (loadParameters_frame path rest s count).2.2
          obtain ⟨ih1, ih2⟩ := ih s count
          refine ⟨fun h t c ht => ?_, fun h t c ht => ?_⟩
          · have hgt : Getenv t.env (n.drop path.length) ≠ [] := by
              rw [(Ext.trans hfr ht).keeps _ hg]; exact hg
            rw [loadParameters_skip rest t c hn hlen hgt]
            exact ih1 h t c ht
          · have hgt : Getenv t.env (n.drop path.length) ≠ [] := by
              rw [ht, hfr.keeps _ hg]; exact hg
            rw [loadParameters_skip rest t c hn hlen hgt]
            exact ih2 h t c ht

theorem loadPages_cons_next {path : GoString} {page : GetParametersByPathOutput}
    (rest : Paginator) {t t2 : State} {c c2 : Nat}
    (h : loadParameters path page.Parameters
      { t with calls := t.calls ++ [Call.NextPage path] } c = .next t2 c2) :
    loadPages path ((some page, none) :: rest) t c = loadPages path rest t2 c2 := by
  rw [loadPages]
  simp only [h]

theorem loadPages_cons_stop {path : GoString} {page : GetParametersByPathOutput}
    (rest : Paginator) {t : State} {c : Nat}
    (h : (loadParameters path page.Parameters
      { t with calls := t.calls ++ [Call.NextPage path] } c).continues = false) :
    loadPages path ((some page, none) :: rest) t c
      = loadParameters path page.Parameters
          { t with calls := t.calls ++ [Call.NextPage path] } c := by
  rw [loadPages]
  cases hr : loadParameters path page.Parameters
      { t with calls := t.calls ++ [Call.NextPage path] } c with
  | next s2 c2 => rw [hr] at h; simp [Flow.continues] at h
  | ret s2 => simp only [hr]
  | panic p s2 => simp only [hr]

/-- Running the page loop again, from the environment it left or from one grown from it,
ends the same way and changes nothing. -/
theorem loadPages_replay (path : GoString) (pg : Paginator) :
    ∀ (s : State) (count : Nat),
      ((loadPages path pg s count).continues = true → ∀ (t : State) (c : Nat),
        Ext (loadPages path pg s count).state.env t.env →
        (loadPages path pg t c).continues = true ∧
        (loadPages path pg t c).state.env = t.env) ∧
      ((loadPages path pg s count).continues = false → ∀ (t : State) (c : Nat),
        t.env = (loadPages path pg s count).state.env →
        (loadPages path pg t c).continues = false ∧
        (loadPages path pg t c).state.env = t.env ∧
        (loadPages path pg t c).panicked = (loadPages path pg s count).panicked) := by
  induction pg with
  | nil =>
    intro s count
    exact ⟨fun _ t c _ => ⟨rfl, rfl⟩, fun h => by simp [loadPages, Flow.continues] at h⟩
  | cons entry rest ih =>
    intro s count
    obtain ⟨page, err⟩ := entry
    cases err with
    | some e =>
      have e1 : ∀ (t : State) (c : Nat), loadPages path ((page, some e) :: rest) t c
          = .ret (verboseLog { t with calls := t.calls ++ [Call.NextPage path] }
              (.errorGettingParameters e)) := by
        intro t c; rw [loadPages]
      rw [e1]
      exact ⟨fun h => by simp [Flow.continues] at h,
        fun _ t c _ => by rw [e1]; exact ⟨rfl, by simp [Flow.state], rfl⟩⟩
    | none =>
      cases page with
      | none =>
        have e1 : ∀ (t : State) (c : Nat), loadPages path ((none, none) :: rest) t c
            = .panic .nilDereference { t with calls := t.calls ++ [Call.NextPage path] } := by
          intro t c; rw [loadPages]
        rw [e1]
        exact ⟨fun h => by simp [Flow.continues] at h,
          fun _ t c _ => by rw [e1]; exact ⟨rfl, rfl, rfl⟩⟩
      | some page =>
        obtain ⟨rp1, rp2⟩ := loadParameters_replay path page.Parameters
          { s with calls := s.calls ++ [Call.NextPage path] } count
        cases hg : loadParameters path page.Parameters
            { s with calls := s.calls ++ [Call.NextPage path] } count with
        | next s2 c2 =>
          rw [loadPages_cons_next rest hg]
          rw [hg] at rp1
          simp only [Flow.continues, Flow.state, forall_const] at rp1
          have hfr := (loadPages_frame path rest s2 c2).2.2.2
          obtain ⟨ih1, ih2⟩ := ih s2 c2
          have second : ∀ (t : State) (c : Nat), Ext s2.env t.env →
              ∃ t2 c3, loadPages path ((some page, none) :: rest) t c
                = loadPages path rest t2 c3 ∧ t2.env = t.env := by
            intro t c ht
            obtain ⟨q1, q2⟩ := rp1 { t with calls := t.calls ++ [Call.NextPage path] } c ht
            cases hr : loadParameters path page.Parameters
                { t with calls := t.calls ++ [Call.NextPage path] } c with
            | next t2 c3 =>
              rw [hr] at q2
              exact ⟨t2, c3, loadPages_cons_next rest hr, q2⟩
            | ret t2 => rw [hr] at q1; simp [Flow.continues] at q1
            | panic p t2 => rw [hr] at q1; simp [Flow.continues] at q1
          refine ⟨fun h t c ht => ?_, fun h t c ht => ?_⟩
          · obtain ⟨t2, c3, e2, he2⟩ := second t c (Ext.trans hfr ht)
            rw [e2]
            have := ih1 h t2 c3 (by rw [he2]; exact ht)
            rw [he2] at this
            exact this
          · obtain ⟨t2, c3, e2, he2⟩ := second t c (by rw [ht]; exact hfr)
            rw [e2]
            have := ih2 h t2 c3 (by rw [he2]; exact ht)
            rw [he2] at this
            exact this
        | ret s2 =>
          have hstop : (loadParameters path page.Parameters
              { s with calls := s.calls ++ [Call.NextPage path] } count).continues = false := by
            rw [hg]; rfl
          rw [loadPages_cons_stop rest hstop]
          refine ⟨fun h => by rw [hstop] at h; simp at h, fun _ t c ht => ?_⟩
          obtain ⟨q1, q2, q3⟩ := rp2 hstop
            { t with calls := t.calls ++ [Call.NextPage path] } c ht
          rw [loadPages_cons_stop rest q1]
          exact ⟨q1, q2, q3⟩
        | panic p s2 =>
          have hstop : (loadParameters path page.Parameters
              { s with calls := s.calls ++ [Call.NextPage path] } count).continues = false := by
            rw [hg]; rfl
          rw [loadPages_cons_stop rest hstop]
          refine ⟨fun h => by rw [hstop] at h; simp at h, fun _ t c ht => ?_⟩
          obtain ⟨q1, q2, q3⟩ := rp2 hstop
            { t with calls := t.calls ++ [Call.NextPage path] } c ht
          rw [loadPages_cons_stop rest q1]
          exact ⟨q1, q2, q3⟩

theorem noParametersLoaded_env (s : State) (count : Nat) (path : GoString) :
    (if count = 0 then verboseLog s (.noParametersLoaded path) else s).env = s.env := by
  split <;> simp

/-- Running the path loop again from the environment it left ends the same way and changes
nothing. -/
theorem loadPaths_replay (c : SSMClient) (paths : List GoString) :
    ∀ (s t : State), t.env = (loadPaths c paths s).state.env →
      (loadPaths c paths t).state.env = t.env ∧
      (loadPaths c paths t).returns = (loadPaths c paths s).returns := by
  induction paths with
  | nil => exact fun s t _ => ⟨rfl, rfl⟩
  | cons q rest ih =>
    intro s t
    cases hpg : c.GetParametersByPathPaginator
        { Path := q, Recursive := true, WithDecryption := true } with
    | none =>
      have e : ∀ u : State, loadPaths c (q :: rest) u = .panic .nilDereference
          { u with calls := u.calls ++ [Call.GetParametersByPathPaginator
            { Path := q, Recursive := true, WithDecryption := true }] } := by
        intro u; rw [loadPaths]; simp only [hpg]
      rw [e s, e t]
      exact fun _ => ⟨rfl, rfl⟩
    | some pg =>
      obtain ⟨rp1, rp2⟩ := loadPages_replay q pg
        { s with calls := s.calls ++ [Call.GetParametersByPathPaginator
          { Path := q, Recursive := true, WithDecryption := true }] } 0
      cases hf : loadPages q pg
        { s with calls := s.calls ++ [Call.GetParametersByPathPaginator
          { Path := q, Recursive := true, WithDecryption := true }] } 0 with
      | next s2 c2 =>
        have e1 : loadPaths c (q :: rest) s = loadPaths c rest
            (if c2 = 0 then verboseLog s2 (.noParametersLoaded q) else s2) := by
          rw [loadPaths]; simp only [hpg, hf]
        rw [e1]
        intro ht
        rw [hf] at rp1
        simp only [Flow.continues, Flow.state, forall_const] at rp1
        have hfr := (loadPaths_frame c rest
          (if c2 = 0 then verboseLog s2 (.noParametersLoaded q) else s2)).2.2.2
        rw [noParametersLoaded_env] at hfr
        obtain ⟨q1, q2⟩ := rp1
          { t with calls := t.calls ++ [Call.GetParametersByPathPaginator
            { Path := q, Recursive := true, WithDecryption := true }] } 0
          (by rw [← ht] at hfr; exact hfr)
        cases hr : loadPages q pg
          { t with calls := t.calls ++ [Call.GetParametersByPathPaginator
            { Path := q, Recursive := true, WithDecryption := true }] } 0 with
        | next t2 c3 =>
          rw [hr] at q2
          simp only [Flow.state] at q2
          have e2 : loadPaths c (q :: rest) t = loadPaths c rest
              (if c3 = 0 then verboseLog t2 (.noParametersLoaded q) else t2) := by
            rw [loadPaths]; simp only [hpg, hr]
          rw [e2]
          have := ih (if c2 = 0 then verboseLog s2 (.noParametersLoaded q) else s2)
            (if c3 = 0 then verboseLog t2 (.noParametersLoaded q) else t2)
            (by rw [noParametersLoaded_env, q2]; exact ht)
          rw [noParametersLoaded_env, q2] at this
          exact this
        | ret t2 => rw [hr] at q1; simp [Flow.continues] at q1
        | panic p t2 => rw [hr] at q1; simp [Flow.continues] at q1
      | ret s2 =>
        have e1 : loadPaths c (q :: rest) s = .ok () s2 := by
          rw [loadPaths]; simp only [hpg, hf]
        rw [e1]
        intro ht
        rw [hf] at rp2
        simp only [Flow.continues, Flow.state, Flow.panicked, forall_const] at rp2
        obtain ⟨q1, q2, q3⟩ := rp2
          { t with calls := t.calls ++ [Call.GetParametersByPathPaginator
            { Path := q, Recursive := true, WithDecryption := true }] } 0 ht
        cases hr : loadPages q pg
          { t with calls := t.calls ++ [Call.GetParametersByPathPaginator
            { Path := q, Recursive := true, WithDecryption := true }] } 0 with
        | next t2 c3 => rw [hr] at q1; simp [Flow.continues] at q1
        | ret t2 =>
          rw [hr] at q2
          have e2 : loadPaths c (q :: rest) t = .ok () t2 := by
            rw [loadPaths]; simp only [hpg, hr]
          rw [e2]
          exact ⟨q2, rfl⟩
        | panic p t2 => rw [hr] at q3; simp [Flow.panicked] at q3
      | panic p s2 =>
        have e1 : loadPaths c (q :: rest) s = .panic p s2 := by
          rw [loadPaths]; simp only [hpg, hf]
        rw [e1]
        intro ht
        rw [hf] at rp2
        simp only [Flow.continues, Flow.state, Flow.panicked, forall_const] at rp2
        obtain ⟨q1, q2, q3⟩ := rp2
          { t with calls := t.calls ++ [Call.GetParametersByPathPaginator
            { Path := q, Recursive := true, WithDecryption := true }] } 0 ht
        cases hr : loadPages q pg
          { t with calls := t.calls ++ [Call.GetParametersByPathPaginator
            { Path := q, Recursive := true, WithDecryption := true }] } 0 with
        | next t2 c3 => rw [hr] at q1; simp [Flow.continues] at q1
        | ret t2 => rw [hr] at q3; simp [Flow.panicked] at q3
        | panic p2 t2 =>
          rw [hr] at q2
          have e2 : loadPaths c (q :: rest) t = .panic p2 t2 := by
            rw [loadPaths]; simp only [hpg, hr]
          rw [e2]
          exact ⟨q2, rfl⟩

theorem mem_keys_Setenv_of_settable {k v : GoString} (E : Environ) (h : settable k v = true) :
    k ∈ (Setenv E k v).map Prod.fst := by
  simp only [Setenv, h, if_true]
  exact (keys_store k v E).1

/-- After the `.env` entries have been applied, every key of the file is present in the
environment, or was present at the start, or is one `Setenv` rejects. -/
theorem dotenv_fold_keys (cur : List GoString) (l : List (GoString × GoString)) :
    ∀ e : Environ,
      (∀ x ∈ e.map Prod.fst,
        x ∈ (l.foldl (fun e kv => if kv.1 ∈ cur then e else Setenv e kv.1 kv.2) e).map
          Prod.fst) ∧
      (∀ kv ∈ l, kv.1 ∈ cur ∨ settable kv.1 kv.2 = false ∨
        kv.1 ∈ (l.foldl (fun e kv => if kv.1 ∈ cur then e else Setenv e kv.1 kv.2) e).map
          Prod.fst) := by
  induction l with
  | nil => intro e; exact ⟨fun x hx => hx, fun kv hkv => by simp at hkv⟩
  | cons kv rest ih =>
    intro e
    simp only [List.foldl_cons]
    obtain ⟨i1, i2⟩ := ih (if kv.1 ∈ cur then e else Setenv e kv.1 kv.2)
    have hstep : ∀ x ∈ e.map Prod.fst,
        x ∈ (if kv.1 ∈ cur then e else Setenv e kv.1 kv.2).map Prod.fst := by
      intro x hx
      split
      · exact hx
      · exact keys_Setenv _ _ _ x hx
    refine ⟨fun x hx => i1 x (hstep x hx), ?_⟩
    intro kv2 hkv2
    rcases List.mem_cons.mp hkv2 with h | h
    · subst h
      by_cases hc : kv2.1 ∈ cur
      · exact Or.inl hc
      · by_cases hs : settable kv2.1 kv2.2 = true
        · right; right
          apply i1
          simp only [hc, if_false]
          exact mem_keys_Setenv_of_settable e hs
        · exact Or.inr (Or.inl (by simpa using hs))
    · exact i2 kv2 h

theorem dotenv_fold_id (cur : List GoString) (l : List (GoString × GoString))
    (h : ∀ kv ∈ l, kv.1 ∈ cur ∨ settable kv.1 kv.2 = false) :
    ∀ e : Environ,
      l.foldl (fun e kv => if kv.1 ∈ cur then e else Setenv e kv.1 kv.2) e = e := by
  induction l with
  | nil => exact fun e => rfl
  | cons kv rest ih =>
    intro e
    simp only [List.foldl_cons]
    have hstep : (if kv.1 ∈ cur then e else Setenv e kv.1 kv.2) = e := by
      rcases h kv (List.mem_cons_self _ _) with hc | hs
      · simp [hc]
      · simp [Setenv, hs]
    rw [hstep]
    exact ih (fun kv2 hkv2 => h kv2 (List.mem_cons_of_mem _ hkv2)) e

/-- `godotenv.Load` changes nothing when it runs again, in the environment it left or in
one that has grown since. -/
theorem godotenvLoad_again (file : Option (List (GoString × GoString))) (E E2 : Environ)
    (hkeys : ∀ x ∈ (godotenvLoad file E).1.map Prod.fst, x ∈ E2.map Prod.fst) :
    (godotenvLoad file E2).1 = E2 := by
  cases file with
  | none => rfl
  | some entries =>
    simp only [godotenvLoad] at hkeys ⊢
    obtain ⟨h1, h2⟩ := dotenv_fold_keys (E.map Prod.fst) entries E
    apply dotenv_fold_id
    intro kv hkv
    rcases h2 kv hkv with h | h | h
    · exact Or.inl (hkeys _ (h1 _ h))
    · exact Or.inr h
    · exact Or.inl (hkeys _ h)

/-- What `getSsmClient` returns depends on the package variable `client` and on the
environment only. -/
theorem getSsmClient_congr (w : World) {s t : State} (hc : s.client = t.client)
    (he : s.env = t.env) : (getSsmClient w s).1 = (getSsmClient w t).1 := by
  unfold getSsmClient
  rw [← hc]
  cases s.client with
  | some c => rfl
  | none =>
    simp only
    have hr : Env s (str "AWS_REGION") [str "eu-west-3"]
        = Env t (str "AWS_REGION") [str "eu-west-3"] := by simp [Env, he]
    rw [← hr, ← he]
    cases w.LoadDefaultConfig s.env (Env s (str "AWS_REGION") [str "eu-west-3"]) <;> rfl

theorem Load_eq (w : World) (paths : List GoString) (s : State) :
    Load w paths s =
      match (getSsmClient w (loadDotenv w s)).1 with
      | none => .ok () (getSsmClient w (loadDotenv w s)).2
      | some c => loadPaths c paths (getSsmClient w (loadDotenv w s)).2 := by
  unfold Load
  rw [getSsmClient_eq]
  cases (getSsmClient w (loadDotenv w s)).1 <;> rfl

/-- C10. `Load` is idempotent against an unchanged remote store and `.env` file: calling
`Load(paths...)` again in the state the first call left (also when the first call stopped
on a page error or in a panic) leaves the process environment as the first call left it,
and the second call returns exactly when the first did. -/
theorem Load_idempotent (w : World) (paths : List GoString) (s : State) :
    (Load w paths (Load w paths s).state).state.env = (Load w paths s).state.env ∧
    (Load w paths (Load w paths s).state).returns = (Load w paths s).returns := by
  have hext := Load_ext w paths s
  have hcl := (Load_frame w paths s).1
  rw [getSsmClient_client] at hcl
  have henv2 : (loadDotenv w (Load w paths s).state).env = (Load w paths s).state.env := by
    rw [loadDotenv_env]
    apply godotenvLoad_again w.dotenv s.env
    have := hext.keys
    rw [loadDotenv_env] at this
    exact this
  have hcl2 : (loadDotenv w (Load w paths s).state).client
      = (getSsmClient w (loadDotenv w s)).1 := by
    rw [loadDotenv_client, hcl]
  have hg2 := getSsmClient_env w (loadDotenv w (Load w paths s).state)
  rw [Load_eq w paths (Load w paths s).state]
  cases hc : (getSsmClient w (loadDotenv w s)).1 with
  | none =>
    have hfirst : Load w paths s = .ok () (getSsmClient w (loadDotenv w s)).2 := by
      rw [Load_eq, hc]
    have hsame : (getSsmClient w (loadDotenv w (Load w paths s).state)).1 = none := by
      rw [← hc]
      apply getSsmClient_congr
      · rw [hcl2, hc]
        have := getSsmClient_client w (loadDotenv w s)
        rw [hc] at this
        have h0 : (loadDotenv w s).client = none := by
          cases h : (loadDotenv w s).client with
          | none => rfl
          | some c0 => rw [getSsmClient_of_some h] at hc; simp at hc
        rw [h0]
      · rw [henv2, hfirst]
        simp [Result.state]
    rw [hsame]
    refine ⟨?_, ?_⟩
    · show (getSsmClient w (loadDotenv w (Load w paths s).state)).2.env = _
      rw [hg2, henv2]
    · show true = _
      rw [hfirst]
      rfl
  | some c =>
    have hfirst : Load w paths s = loadPaths c paths (getSsmClient w (loadDotenv w s)).2 := by
      rw [Load_eq, hc]
    rw [hc] at hcl2
    rw [getSsmClient_of_some hcl2]
    simp only
    have := loadPaths_replay c paths (getSsmClient w (loadDotenv w s)).2
      (loadDotenv w (Load w paths s).state) (by rw [henv2, hfirst])
    rw [henv2] at this
    rw [← hfirst] at this
    exact this

end Ssmdotenv
